import Mathlib

/-!
# Verification of the invoice normalization and reconciliation pipeline

Shallow embedding of the invoice-processing core of the repository:
the international amount/date normalizers, the line-item refiner and
invoice normalizer (`cleanInvoiceData`, both variants), the
extraction-result JSON recovery strategies, and the reconciliation
logic over the invoice store (`findDuplicateInvoice`, `saveInvoice`,
`updateInvoice`, `deleteLineItemsByInvoiceId`, `saveLineItems`).

JavaScript numbers are modelled as `Option ℚ` where `none` stands for
`NaN` (`typeof NaN === 'number'` in JS, so `NaN` is still "a number");
amounts in the claims are exact decimals, so rationals are faithful.
String scanning follows the regexes of the source, specialized to the
deterministic patterns they contain (no backtracking is observable for
these patterns, as argued in the comments at each scanner).
-/

namespace Invoice

/-- Approximation of the JS `\s` class / `String.prototype.trim` set:
ASCII whitespace including vertical tab and form feed. -/
def jsIsSpace (c : Char) : Bool :=
  c = ' ' || c = '\t' || c = '\n' || c = '\r' || c = '\x0b' || c = '\x0c'

/-- Numeric value of a digit string, as JS `parseInt`/`parseFloat`
accumulate it: `foldl (n * 10 + digit)`. -/
def natOfDigits (l : List Char) : Nat :=
  l.foldl (fun n c => n * 10 + (c.toNat - 48)) 0

/-- Digit-list value as a rational. -/
def digitsVal (l : List Char) : ℚ := (natOfDigits l : ℚ)

/-- JS `trim`: drop leading and trailing whitespace. -/
def jsTrimList (l : List Char) : List Char :=
  ((l.dropWhile jsIsSpace).reverse.dropWhile jsIsSpace).reverse

/-- JS `trim` on strings. -/
def jsTrim (s : String) : String := ⟨jsTrimList s.data⟩

/-- JS `String.prototype.replace(c, r)` with a plain one-character
pattern: replaces the first occurrence only. -/
def replaceFirstChar : List Char → Char → Char → List Char
  | [], _, _ => []
  | c :: cs, t, r => if c = t then r :: cs else c :: replaceFirstChar cs t r

/-- JS `String.prototype.lastIndexOf` for a single character:
`-1` when absent. -/
def lastIndexOf (c : Char) : List Char → Int
  | [] => -1
  | x :: xs =>
    let r := lastIndexOf c xs
    if r ≥ 0 then r + 1 else if x = c then 0 else -1

/-- Does the list start with the character `c`? -/
def headIs (c : Char) : List Char → Bool
  | [] => false
  | x :: _ => x == c

@[simp] theorem headIs_nil (c : Char) : headIs c [] = false := rfl

@[simp] theorem headIs_cons (c x : Char) (xs : List Char) :
    headIs c (x :: xs) = (x == c) := rfl

/-- Exponent part of JS `parseFloat` (`e`/`E`, optional sign, digits);
an exponent with no digits is ignored, as `parseFloat` stops at the
longest valid numeric prefix. -/
def parseFloatExpAux (mant : ℚ) (r : List Char) : ℚ :=
  let esign : Int := if headIs '-' r then -1 else 1
  let r1 := if headIs '-' r || headIs '+' r then r.tail else r
  let ds := r1.takeWhile Char.isDigit
  if ds.isEmpty then mant else mant * (10 : ℚ) ^ (esign * (natOfDigits ds : Int))

/-- Dispatch on an optional `e`/`E` exponent marker after the mantissa. -/
def parseFloatExp (mant : ℚ) (rest : List Char) : ℚ :=
  if headIs 'e' rest || headIs 'E' rest then parseFloatExpAux mant rest.tail
  else mant

/-- JS `parseFloat` on a character list: skip leading whitespace,
optional sign, integer digits, optional `.` and fraction digits,
optional exponent; parses the longest valid numeric prefix and ignores
any trailing characters; `none` models `NaN` (no digits at all). -/
def jsParseFloatList (l : List Char) : Option ℚ :=
  let cs := l.dropWhile jsIsSpace
  let sign : ℚ := if headIs '-' cs then -1 else 1
  let cs1 := if headIs '-' cs || headIs '+' cs then cs.tail else cs
  let intPart := cs1.takeWhile Char.isDigit
  let rest1 := cs1.dropWhile Char.isDigit
  let fracPart := if headIs '.' rest1 then rest1.tail.takeWhile Char.isDigit else []
  let rest2 := if headIs '.' rest1 then rest1.tail.dropWhile Char.isDigit else rest1
  if intPart.isEmpty && fracPart.isEmpty then none
  else
    some (parseFloatExp
      (sign * (digitsVal intPart + digitsVal fracPart / (10 : ℚ) ^ fracPart.length)) rest2)

/-- JS `parseFloat` on strings. -/
def jsParseFloat (s : String) : Option ℚ := jsParseFloatList s.data

/-- A JavaScript `string | number` value; `num none` is `NaN`. -/
inductive StrOrNum where
  | str (s : String)
  | num (n : Option ℚ)
deriving DecidableEq, Repr

/-- The `.replace(/[$€£¥]|\s/g, '')` step of `parseInternationalAmount`. -/
def stripCurrencyWs (s : String) : List Char :=
  s.data.filter (fun c => !(c = '$' || c = '€' || c = '£' || c = '¥' || jsIsSpace c))

/-- `parseInternationalAmount` from the invoice tool: numbers pass
through; strings are stripped of currency symbols and whitespace, then
the comma/period separator rules choose the decimal separator and
`parseFloat` finishes. The source's `catch` branch returning `0` is
unreachable (none of `replace`/`parseFloat` throws), so it has no
counterpart here. -/
def parseInternationalAmount : StrOrNum → Option ℚ
  | .num n => n
  | .str s =>
    let cleaned := stripCurrencyWs s
    if cleaned.contains ',' && !cleaned.contains '.' then
      jsParseFloatList (replaceFirstChar cleaned ',' '.')
    else if cleaned.contains ',' && cleaned.contains '.' then
      if lastIndexOf ',' cleaned > lastIndexOf '.' cleaned then
        jsParseFloatList (replaceFirstChar (cleaned.filter (· ≠ '.')) ',' '.')
      else
        jsParseFloatList (cleaned.filter (· ≠ ','))
    else
      jsParseFloatList cleaned

/-- Amount handling of `cleanInvoiceData` in the best-effort
extraction path (`process-invoice.ts`): a string amount is stripped of
`[$,£€]`, trimmed and given to `parseFloat(...) || 1.0` (so `NaN` and
`0` both fall back to `1.0`); a numeric `0`, `null` or `undefined`
amount becomes `1.0`; any other number passes through unchanged
(`NaN` numbers hit neither branch and stay `NaN`). -/
def procCleanAmount : Option StrOrNum → Option ℚ
  | some (.str s) =>
    match jsParseFloatList (jsTrimList (s.data.filter
        (fun c => !(c = '$' || c = ',' || c = '£' || c = '€')))) with
    | none => some 1
    | some q => if q = 0 then some 1 else some q
  | some (.num none) => none
  | some (.num (some q)) => if q = 0 then some 1 else some q
  | none => some 1

/-! ## Character and list facts used by the separator-rule proofs -/

/-- A digit differs from any concrete non-digit character. -/
theorem digit_ne {c : Char} (h : c.isDigit = true) (d : Char)
    (hd : d.isDigit = false) : c ≠ d := by
  intro hcd; subst hcd; rw [h] at hd; cases hd

/-- A decimal digit is not in the JS whitespace class. -/
theorem digit_not_space {c : Char} (h : c.isDigit = true) : jsIsSpace c = false := by
  simp only [jsIsSpace, Bool.or_eq_false_iff, decide_eq_false_iff_not]
  exact ⟨⟨⟨⟨⟨digit_ne h ' ' (by decide), digit_ne h '\t' (by decide)⟩,
    digit_ne h '\n' (by decide)⟩, digit_ne h '\r' (by decide)⟩,
    digit_ne h '\x0b' (by decide)⟩, digit_ne h '\x0c' (by decide)⟩

/-- A decimal digit survives the currency/whitespace strip filter. -/
theorem digit_not_currency {c : Char} (h : c.isDigit = true) :
    (!(c = '$' || c = '€' || c = '£' || c = '¥' || jsIsSpace c)) = true := by
  simp only [Bool.not_eq_true', Bool.or_eq_false_iff, decide_eq_false_iff_not]
  exact ⟨⟨⟨⟨digit_ne h '$' (by decide), digit_ne h '€' (by decide)⟩,
    digit_ne h '£' (by decide)⟩, digit_ne h '¥' (by decide)⟩, digit_not_space h⟩

theorem takeWhile_append_cons {p : Char → Bool} {a r : List Char} {x : Char}
    (ha : ∀ c ∈ a, p c = true) (hx : p x = false) :
    (a ++ x :: r).takeWhile p = a := by
  induction a with
  | nil => simp [List.takeWhile_cons, hx]
  | cons c a ih =>
    have hc : p c = true := ha c (List.mem_cons_self c a)
    simp [List.takeWhile_cons, hc, ih (fun d hd => ha d (List.mem_cons_of_mem c hd))]

theorem dropWhile_append_cons {p : Char → Bool} {a r : List Char} {x : Char}
    (ha : ∀ c ∈ a, p c = true) (hx : p x = false) :
    (a ++ x :: r).dropWhile p = x :: r := by
  induction a with
  | nil => simp [List.dropWhile_cons, hx]
  | cons c a ih =>
    have hc : p c = true := ha c (List.mem_cons_self c a)
    simp [List.dropWhile_cons, hc, ih (fun d hd => ha d (List.mem_cons_of_mem c hd))]

theorem takeWhile_eq_self {p : Char → Bool} {a : List Char}
    (ha : ∀ c ∈ a, p c = true) : a.takeWhile p = a := by
  induction a with
  | nil => rfl
  | cons c a ih =>
    have hc : p c = true := ha c (List.mem_cons_self c a)
    simp [List.takeWhile_cons, hc, ih (fun d hd => ha d (List.mem_cons_of_mem c hd))]

theorem dropWhile_eq_nil {p : Char → Bool} {a : List Char}
    (ha : ∀ c ∈ a, p c = true) : a.dropWhile p = [] := by
  induction a with
  | nil => rfl
  | cons c a ih =>
    have hc : p c = true := ha c (List.mem_cons_self c a)
    simp [List.dropWhile_cons, hc, ih (fun d hd => ha d (List.mem_cons_of_mem c hd))]

theorem dropWhile_eq_self_of_false {p : Char → Bool} {a : List Char}
    (ha : ∀ c ∈ a, p c = false) : a.dropWhile p = a := by
  cases a with
  | nil => rfl
  | cons c a => simp [List.dropWhile_cons, ha c (List.mem_cons_self c a)]

theorem replaceFirstChar_append_not_mem {a r : List Char} {t rep : Char}
    (ha : t ∉ a) : replaceFirstChar (a ++ t :: r) t rep = a ++ rep :: r := by
  induction a with
  | nil => simp [replaceFirstChar]
  | cons c a ih =>
    have hc : c ≠ t := fun h => ha (h ▸ List.mem_cons_self c a)
    simp [replaceFirstChar, hc, ih (fun h => ha (List.mem_cons_of_mem c h))]

theorem lastIndexOf_eq_neg_one {c : Char} {l : List Char} (h : c ∉ l) :
    lastIndexOf c l = -1 := by
  induction l with
  | nil => rfl
  | cons x xs ih =>
    have hx : x ≠ c := fun hxc => h (hxc ▸ List.mem_cons_self x xs)
    have := ih (fun hm => h (List.mem_cons_of_mem x hm))
    simp [lastIndexOf, this, hx]

theorem lastIndexOf_lt_length (c : Char) (l : List Char) :
    lastIndexOf c l < (l.length : Int) := by
  induction l with
  | nil => simp [lastIndexOf]
  | cons x xs ih =>
    simp only [lastIndexOf, List.length_cons]
    split
    · push_cast; omega
    · split
      · push_cast; omega
      · push_cast; omega

theorem lastIndexOf_append_cons {p r : List Char} {c : Char} (h : c ∉ r) :
    lastIndexOf c (p ++ c :: r) = (p.length : Int) := by
  induction p with
  | nil =>
    simp [lastIndexOf, lastIndexOf_eq_neg_one h]
  | cons x xs ih =>
    simp only [List.cons_append, lastIndexOf, List.append_eq, ih, List.length_cons]
    have hge : ((xs.length : Int)) ≥ 0 := by positivity
    rw [if_pos hge]
    push_cast; ring

theorem lastIndexOf_append_cons_ne {p r : List Char} {c x : Char}
    (hx : x ≠ c) (h : c ∉ r) :
    lastIndexOf c (p ++ x :: r) = lastIndexOf c p := by
  induction p with
  | nil =>
    simp [lastIndexOf, lastIndexOf_eq_neg_one h, hx]
  | cons y ys ih =>
    simp only [List.cons_append, lastIndexOf, List.append_eq, ih]

/-- The head of `a ++ '.' :: b` (digits around the dot) is never the
character `d` when `d` is neither a digit nor the dot. -/
theorem headIs_digits_dot {a b : List Char} (ha : ∀ c ∈ a, c.isDigit = true)
    {d : Char} (hd : d.isDigit = false) (hdot : ('.' : Char) ≠ d) :
    headIs d (a ++ '.' :: b) = false := by
  cases a with
  | nil => simp [headIs, hdot]
  | cons c0 a' =>
    have := digit_ne (ha c0 (List.mem_cons_self c0 a')) d hd
    simp [headIs, this]

/-- `jsParseFloatList` on a pure decimal string `a ++ "." ++ b` made of
digits: the value is `a + b/10^|b|`. -/
theorem jsParseFloatList_digits {a b : List Char}
    (ha : ∀ c ∈ a, c.isDigit = true) (hb : ∀ c ∈ b, c.isDigit = true)
    (hne : a ≠ [] ∨ b ≠ []) :
    jsParseFloatList (a ++ '.' :: b)
      = some (digitsVal a + digitsVal b / (10 : ℚ) ^ b.length) := by
  have hspace : ∀ c ∈ a ++ '.' :: b, jsIsSpace c = false := by
    intro c hc
    rcases List.mem_append.mp hc with hc | hc
    · exact digit_not_space (ha c hc)
    · rcases List.mem_cons.mp hc with rfl | hc
      · rfl
      · exact digit_not_space (hb c hc)
  have hdot : ('.' : Char).isDigit = false := by decide
  have hminus := headIs_digits_dot (b := b) ha (d := '-') (by decide) (by decide)
  have hplus := headIs_digits_dot (b := b) ha (d := '+') (by decide) (by decide)
  have htake : (a ++ '.' :: b).takeWhile Char.isDigit = a := takeWhile_append_cons ha hdot
  have hdrop2 : (a ++ '.' :: b).dropWhile Char.isDigit = '.' :: b := dropWhile_append_cons ha hdot
  have hemp : (a.isEmpty && (b.takeWhile Char.isDigit).isEmpty) = false := by
    rcases hne with h | h
    · cases a with
      | nil => exact absurd rfl h
      | cons x xs => rfl
    · rw [takeWhile_eq_self hb]
      cases b with
      | nil => exact absurd rfl h
      | cons x xs => simp
  have hdotb : headIs '.' ('.' :: b) = true := by simp [headIs]
  simp only [jsParseFloatList]
  rw [dropWhile_eq_self_of_false hspace]
  simp only [hminus, hplus, Bool.or_self]
  simp only [Bool.false_eq_true, if_false, htake, hdrop2, hdotb, if_true,
    List.tail_cons, takeWhile_eq_self hb, dropWhile_eq_nil hb, hemp,
    parseFloatExp, headIs, one_mul]
  simp
  intro h1
  rcases hne with h2 | h2
  · exact absurd h1 h2
  · exact h2

/-- `jsParseFloatList` on a pure digit string (no decimal point). -/
theorem jsParseFloatList_digits_only {a : List Char}
    (ha : ∀ c ∈ a, c.isDigit = true) (hne : a ≠ []) :
    jsParseFloatList a = some (digitsVal a) := by
  have hspace : ∀ c ∈ a, jsIsSpace c = false := fun c hc => digit_not_space (ha c hc)
  have hminus : headIs '-' a = false := by
    cases a with
    | nil => rfl
    | cons c0 a' =>
      have := digit_ne (ha c0 (List.mem_cons_self c0 a')) '-' (by decide)
      simp [headIs, this]
  have hplus : headIs '+' a = false := by
    cases a with
    | nil => rfl
    | cons c0 a' =>
      have := digit_ne (ha c0 (List.mem_cons_self c0 a')) '+' (by decide)
      simp [headIs, this]
  have htake : a.takeWhile Char.isDigit = a := takeWhile_eq_self ha
  have hdrop2 : a.dropWhile Char.isDigit = [] := dropWhile_eq_nil ha
  have hemp : a.isEmpty = false := by
    cases a with
    | nil => exact absurd rfl hne
    | cons x xs => rfl
  simp only [jsParseFloatList]
  rw [dropWhile_eq_self_of_false hspace]
  simp only [hminus, hplus, Bool.or_self]
  simp only [Bool.false_eq_true, if_false, htake, hdrop2, headIs_nil, hemp,
    parseFloatExp, one_mul]
  simp [digitsVal, natOfDigits]

/-- Membership facts: the dot does not occur in a digits-and-comma string. -/
theorem dot_not_mem_digits_comma {a b : List Char}
    (ha : ∀ c ∈ a, c.isDigit = true) (hb : ∀ c ∈ b, c.isDigit = true) :
    ('.' : Char) ∉ a ++ ',' :: b := by
  intro hm
  rcases List.mem_append.mp hm with hm | hm
  · exact absurd (ha _ hm) (by decide)
  · rcases List.mem_cons.mp hm with hm | hm
    · exact absurd hm (by decide)
    · exact absurd (hb _ hm) (by decide)

/-- `parseInternationalAmount` on `a ++ "," ++ b` (digits only around a
single comma, no period): the comma is the decimal separator. -/
theorem parseInternationalAmount_comma_only {a b : List Char}
    (ha : ∀ c ∈ a, c.isDigit = true) (hb : ∀ c ∈ b, c.isDigit = true)
    (hne : a ≠ [] ∨ b ≠ []) :
    parseInternationalAmount (.str ⟨a ++ ',' :: b⟩)
      = some (digitsVal a + digitsVal b / (10 : ℚ) ^ b.length) := by
  have hall : ∀ c ∈ a ++ ',' :: b,
      (!(c = '$' || c = '€' || c = '£' || c = '¥' || jsIsSpace c)) = true := by
    intro c hc
    rcases List.mem_append.mp hc with hc | hc
    · exact digit_not_currency (ha c hc)
    · rcases List.mem_cons.mp hc with rfl | hc
      · decide
      · exact digit_not_currency (hb c hc)
  have hclean : stripCurrencyWs ⟨a ++ ',' :: b⟩ = a ++ ',' :: b :=
    List.filter_eq_self.mpr hall
  have hmemc : (',' : Char) ∈ a ++ ',' :: b := List.mem_append_cons_self
  have hnd : ('.' : Char) ∉ a ++ ',' :: b := dot_not_mem_digits_comma ha hb
  have hcomma_a : (',' : Char) ∉ a := fun hm => absurd (ha _ hm) (by decide)
  have h1 : ((a ++ ',' :: b).contains ',' && !(a ++ ',' :: b).contains '.') = true := by
    simp [hmemc, hnd]
  simp only [parseInternationalAmount]
  rw [hclean, if_pos h1, replaceFirstChar_append_not_mem hcomma_a]
  exact jsParseFloatList_digits ha hb hne

/-- `parseInternationalAmount` on `p ++ "," ++ c` where `p` is made of
digits and periods (at least one period) and `c` of digits: the
later-occurring comma is the decimal separator and the periods are
stripped as thousands separators. -/
theorem parseInternationalAmount_dots_then_comma {p c : List Char}
    (hp : ∀ x ∈ p, x.isDigit = true ∨ x = '.') (hdotp : ('.' : Char) ∈ p)
    (hc : ∀ x ∈ c, x.isDigit = true) (hcne : c ≠ []) :
    parseInternationalAmount (.str ⟨p ++ ',' :: c⟩)
      = some (digitsVal (p.filter Char.isDigit) + digitsVal c / (10 : ℚ) ^ c.length) := by
  have hall : ∀ x ∈ p ++ ',' :: c,
      (!(x = '$' || x = '€' || x = '£' || x = '¥' || jsIsSpace x)) = true := by
    intro x hx
    rcases List.mem_append.mp hx with hx | hx
    · rcases hp x hx with hd | rfl
      · exact digit_not_currency hd
      · decide
    · rcases List.mem_cons.mp hx with rfl | hx
      · decide
      · exact digit_not_currency (hc x hx)
  have hclean : stripCurrencyWs ⟨p ++ ',' :: c⟩ = p ++ ',' :: c :=
    List.filter_eq_self.mpr hall
  have hmemc : (',' : Char) ∈ p ++ ',' :: c := List.mem_append_cons_self
  have hmemd : ('.' : Char) ∈ p ++ ',' :: c := List.mem_append.mpr (Or.inl hdotp)
  have h1 : ((p ++ ',' :: c).contains ',' && !(p ++ ',' :: c).contains '.') = false := by
    simp [hmemd]
  have h2 : ((p ++ ',' :: c).contains ',' && (p ++ ',' :: c).contains '.') = true := by
    simp [hmemc, hmemd]
  have hcc : (',' : Char) ∉ c := fun hm => absurd (hc _ hm) (by decide)
  have hdc : ('.' : Char) ∉ c := fun hm => absurd (hc _ hm) (by decide)
  have hli1 : lastIndexOf ',' (p ++ ',' :: c) = (p.length : Int) :=
    lastIndexOf_append_cons hcc
  have hli2 : lastIndexOf '.' (p ++ ',' :: c) = lastIndexOf '.' p :=
    lastIndexOf_append_cons_ne (by decide) hdc
  have hgt : lastIndexOf ',' (p ++ ',' :: c) > lastIndexOf '.' (p ++ ',' :: c) := by
    rw [hli1, hli2]
    exact lastIndexOf_lt_length '.' p
  have hfilter : (p ++ ',' :: c).filter (· ≠ '.')
      = (p.filter (· ≠ '.')) ++ ',' :: c := by
    rw [List.filter_append, List.filter_cons]
    simp only [ne_eq, decide_not]
    rw [if_pos (by decide)]
    congr 1
    congr 1
    exact List.filter_eq_self.mpr (fun x hx => by
      have := digit_ne (hc x hx) '.' (by decide)
      simp [this])
  have hpd : ∀ x ∈ p.filter (· ≠ '.'), x.isDigit = true := by
    intro x hx
    have hxm := List.mem_of_mem_filter hx
    rcases hp x hxm with hd | rfl
    · exact hd
    · have := List.of_mem_filter hx
      simp at this
  have hcomma_pf : (',' : Char) ∉ p.filter (· ≠ '.') := by
    intro hm
    exact absurd (hpd ',' hm) (by decide)
  simp only [parseInternationalAmount]
  rw [hclean, if_neg (by rw [h1]; exact Bool.false_ne_true), if_pos h2,
    if_pos hgt, hfilter, replaceFirstChar_append_not_mem hcomma_pf,
    jsParseFloatList_digits hpd hc (Or.inr hcne)]
  congr 2
  exact congrArg digitsVal (List.filter_congr (fun x hx => by
    rcases hp x hx with hd | rfl
    · simp [hd, digit_ne hd '.' (by decide)]
    · decide))

/-- `parseInternationalAmount` on `p ++ "." ++ c` where `p` is made of
digits and commas (at least one comma) and `c` of digits: the
later-occurring period is the decimal separator and the commas are
stripped as thousands separators. -/
theorem parseInternationalAmount_commas_then_dot {p c : List Char}
    (hp : ∀ x ∈ p, x.isDigit = true ∨ x = ',') (hcomp : (',' : Char) ∈ p)
    (hc : ∀ x ∈ c, x.isDigit = true) (hcne : c ≠ []) :
    parseInternationalAmount (.str ⟨p ++ '.' :: c⟩)
      = some (digitsVal (p.filter Char.isDigit) + digitsVal c / (10 : ℚ) ^ c.length) := by
  have hall : ∀ x ∈ p ++ '.' :: c,
      (!(x = '$' || x = '€' || x = '£' || x = '¥' || jsIsSpace x)) = true := by
    intro x hx
    rcases List.mem_append.mp hx with hx | hx
    · rcases hp x hx with hd | rfl
      · exact digit_not_currency hd
      · decide
    · rcases List.mem_cons.mp hx with rfl | hx
      · decide
      · exact digit_not_currency (hc x hx)
  have hclean : stripCurrencyWs ⟨p ++ '.' :: c⟩ = p ++ '.' :: c :=
    List.filter_eq_self.mpr hall
  have hmemc : (',' : Char) ∈ p ++ '.' :: c := List.mem_append.mpr (Or.inl hcomp)
  have hmemd : ('.' : Char) ∈ p ++ '.' :: c := List.mem_append_cons_self
  have h1 : ((p ++ '.' :: c).contains ',' && !(p ++ '.' :: c).contains '.') = false := by
    simp [hmemd]
  have h2 : ((p ++ '.' :: c).contains ',' && (p ++ '.' :: c).contains '.') = true := by
    simp [hmemc, hmemd]
  have hcc : (',' : Char) ∉ c := fun hm => absurd (hc _ hm) (by decide)
  have hdc : ('.' : Char) ∉ c := fun hm => absurd (hc _ hm) (by decide)
  have hli1 : lastIndexOf '.' (p ++ '.' :: c) = (p.length : Int) :=
    lastIndexOf_append_cons hdc
  have hli2 : lastIndexOf ',' (p ++ '.' :: c) = lastIndexOf ',' p :=
    lastIndexOf_append_cons_ne (by decide) hcc
  have hngt : ¬(lastIndexOf ',' (p ++ '.' :: c) > lastIndexOf '.' (p ++ '.' :: c)) := by
    rw [hli1, hli2]
    have := lastIndexOf_lt_length ',' p
    omega
  have hfilter : (p ++ '.' :: c).filter (· ≠ ',')
      = (p.filter (· ≠ ',')) ++ '.' :: c := by
    rw [List.filter_append, List.filter_cons]
    simp only [ne_eq, decide_not]
    rw [if_pos (by decide)]
    congr 1
    congr 1
    exact List.filter_eq_self.mpr (fun x hx => by
      have := digit_ne (hc x hx) ',' (by decide)
      simp [this])
  have hpd : ∀ x ∈ p.filter (· ≠ ','), x.isDigit = true := by
    intro x hx
    have hxm := List.mem_of_mem_filter hx
    rcases hp x hxm with hd | rfl
    · exact hd
    · have := List.of_mem_filter hx
      simp at this
  simp only [parseInternationalAmount]
  rw [hclean, if_neg (by rw [h1]; exact Bool.false_ne_true), if_pos h2,
    if_neg hngt, hfilter, jsParseFloatList_digits hpd hc (Or.inr hcne)]
  congr 2
  exact congrArg digitsVal (List.filter_congr (fun x hx => by
    rcases hp x hx with hd | rfl
    · simp [hd, digit_ne hd ',' (by decide)]
    · decide))

/-- C3: for numeric strings with a single comma and no period the comma
is the decimal separator; for numeric strings with both a comma and a
period, the later-occurring separator is the decimal separator and the
earlier ones are stripped as thousands separators. -/
theorem parseAmount_separator_rules :
    (∀ a b : List Char, (∀ c ∈ a, c.isDigit = true) → (∀ c ∈ b, c.isDigit = true) →
      a ≠ [] ∨ b ≠ [] →
      parseInternationalAmount (.str ⟨a ++ ',' :: b⟩)
        = some (digitsVal a + digitsVal b / (10 : ℚ) ^ b.length)) ∧
    (∀ p c : List Char, (∀ x ∈ p, x.isDigit = true ∨ x = '.') → ('.' : Char) ∈ p →
      (∀ x ∈ c, x.isDigit = true) → c ≠ [] →
      parseInternationalAmount (.str ⟨p ++ ',' :: c⟩)
        = some (digitsVal (p.filter Char.isDigit) + digitsVal c / (10 : ℚ) ^ c.length)) ∧
    (∀ p c : List Char, (∀ x ∈ p, x.isDigit = true ∨ x = ',') → (',' : Char) ∈ p →
      (∀ x ∈ c, x.isDigit = true) → c ≠ [] →
      parseInternationalAmount (.str ⟨p ++ '.' :: c⟩)
        = some (digitsVal (p.filter Char.isDigit) + digitsVal c / (10 : ℚ) ^ c.length)) :=
  ⟨fun _ _ ha hb hne => parseInternationalAmount_comma_only ha hb hne,
   fun _ _ hp hd hc hcne => parseInternationalAmount_dots_then_comma hp hd hc hcne,
   fun _ _ hp hd hc hcne => parseInternationalAmount_commas_then_dot hp hd hc hcne⟩

/-- Witness for C3 at the spec's own examples. -/
theorem parseAmount_separator_rules_witness :
    parseInternationalAmount (.str "1234,56") = some (1234.56 : ℚ) ∧
    parseInternationalAmount (.str "1.234,56") = some (1234.56 : ℚ) ∧
    parseInternationalAmount (.str "1,234.56") = some (1234.56 : ℚ) := by
  refine ⟨?_, ?_, ?_⟩
  · have h := parseAmount_separator_rules.1 ['1','2','3','4'] ['5','6']
      (by decide) (by decide) (Or.inl (by decide))
    have hs : (StrOrNum.str "1234,56")
        = .str ⟨['1','2','3','4'] ++ ',' :: ['5','6']⟩ := rfl
    rw [hs, h]
    norm_num [digitsVal, show natOfDigits ['1','2','3','4'] = 1234 from rfl,
      show natOfDigits ['5','6'] = 56 from rfl]
  · have h := parseAmount_separator_rules.2.1 ['1','.','2','3','4'] ['5','6']
      (by decide) (by decide) (by decide) (by decide)
    have hs : (StrOrNum.str "1.234,56")
        = .str ⟨['1','.','2','3','4'] ++ ',' :: ['5','6']⟩ := rfl
    rw [hs, h]
    norm_num [digitsVal,
      show List.filter Char.isDigit ['1','.','2','3','4'] = ['1','2','3','4'] from rfl,
      show natOfDigits ['1','2','3','4'] = 1234 from rfl,
      show natOfDigits ['5','6'] = 56 from rfl]
  · have h := parseAmount_separator_rules.2.2 ['1',',','2','3','4'] ['5','6']
      (by decide) (by decide) (by decide) (by decide)
    have hs : (StrOrNum.str "1,234.56")
        = .str ⟨['1',',','2','3','4'] ++ '.' :: ['5','6']⟩ := rfl
    rw [hs, h]
    norm_num [digitsVal,
      show List.filter Char.isDigit ['1',',','2','3','4'] = ['1','2','3','4'] from rfl,
      show natOfDigits ['1','2','3','4'] = 1234 from rfl,
      show natOfDigits ['5','6'] = 56 from rfl]

/-- C5: in the best-effort invoice-creation path, an amount of `0`,
`null`, or absent becomes the non-zero sentinel `1.0`, and no input at
all can leave a `0` amount behind this cleaning step. -/
theorem procCleanAmount_nonzero_default :
    procCleanAmount none = some 1 ∧
    procCleanAmount (some (.num (some 0))) = some 1 ∧
    ∀ a, procCleanAmount a ≠ some 0 := by
  refine ⟨rfl, by norm_num [procCleanAmount], ?_⟩
  intro a
  match a with
  | none => simp [procCleanAmount]
  | some (.num none) => simp [procCleanAmount]
  | some (.num (some q)) =>
    simp only [procCleanAmount]
    by_cases hq : q = 0 <;> simp [hq]
  | some (.str s) =>
    simp only [procCleanAmount]
    cases h : jsParseFloatList (jsTrimList (s.data.filter
        (fun c => !(c = '$' || c = ',' || c = '£' || c = '€')))) with
    | none => simp
    | some q => by_cases hq : q = 0 <;> simp [hq]

/-! ## Date normalizer (`parseInternationalDate`) -/

/-- Month-name table of `parseInternationalDate` (German and English,
full and abbreviated), keyed by the lowercased name. -/
def monthsTable : List (String × Nat) :=
  [("januar", 1), ("january", 1), ("jan", 1),
   ("februar", 2), ("february", 2), ("feb", 2),
   ("märz", 3), ("march", 3), ("mar", 3),
   ("april", 4), ("apr", 4),
   ("mai", 5), ("may", 5),
   ("juni", 6), ("june", 6), ("jun", 6),
   ("juli", 7), ("july", 7), ("jul", 7),
   ("august", 8), ("aug", 8),
   ("september", 9), ("sep", 9),
   ("oktober", 10), ("october", 10), ("oct", 10),
   ("november", 11), ("nov", 11),
   ("dezember", 12), ("december", 12), ("dec", 12)]

/-- Property lookup `months[name]`; `none` models a falsy miss. -/
def monthLookup (m : String) : Option Nat :=
  (monthsTable.find? (fun kv => kv.1 == m)).map (·.2)

/-- JS `toLowerCase` restricted to the characters this pipeline meets:
ASCII letters and the German umlauts. -/
def jsToLowerChar (c : Char) : Char :=
  if c = 'Ä' then 'ä' else if c = 'Ö' then 'ö' else if c = 'Ü' then 'ü'
  else c.toLower

/-- JS `toLowerCase` on strings. -/
def jsToLower (s : String) : String := ⟨s.data.map jsToLowerChar⟩

/-- The character class `[a-zä]` of the named-month regex. -/
def isGermanLetter (c : Char) : Bool := ('a' ≤ c && c ≤ 'z') || c = 'ä'

/-- One attempt of `/(\d+)\.\s*([a-zä]+)\s*(\d{4})/` at the current
position: maximal digit run, a literal dot, optional spaces, maximal
letter run, optional spaces, then exactly four digits.  The pattern is
deterministic: no backtracking can rescue a failure at a position,
because digits, the dot, spaces and letters are disjoint classes. -/
def germanMatchAt (cs : List Char) : Option (List Char × List Char × List Char) :=
  let ds := cs.takeWhile Char.isDigit
  if ds.isEmpty then none
  else
    let r1 := cs.dropWhile Char.isDigit
    if headIs '.' r1 then
      let r2 := r1.tail.dropWhile jsIsSpace
      let ls := r2.takeWhile isGermanLetter
      if ls.isEmpty then none
      else
        let r3 := (r2.dropWhile isGermanLetter).dropWhile jsIsSpace
        let ys := r3.take 4
        if ys.length = 4 && ys.all Char.isDigit then some (ds, ls, ys) else none
    else none

/-- Leftmost match of the named-month pattern (JS `String.match`). -/
def germanFirst : List Char → Option (List Char × List Char × List Char)
  | [] => none
  | c :: cs =>
    match germanMatchAt (c :: cs) with
    | some r => some r
    | none => germanFirst cs

/-- One attempt of `/(\d{2})\.(\d{2})\.(\d{2})/` at the current
position. -/
def periodMatchAt : List Char → Option (List Char × List Char × List Char)
  | d1 :: d2 :: p1 :: m1 :: m2 :: p2 :: y1 :: y2 :: _ =>
    if d1.isDigit && d2.isDigit && p1 == '.' && m1.isDigit && m2.isDigit &&
        p2 == '.' && y1.isDigit && y2.isDigit then
      some ([d1, d2], [m1, m2], [y1, y2])
    else none
  | _ => none

/-- Leftmost match of the two-digit-year pattern. -/
def periodFirst : List Char → Option (List Char × List Char × List Char)
  | [] => none
  | c :: cs =>
    match periodMatchAt (c :: cs) with
    | some r => some r
    | none => periodFirst cs

/-- `String(n).padStart(2, '0')`. -/
def pad2 (n : Nat) : String := if n < 10 then "0" ++ toString n else toString n

/-- The tail of `parseInternationalDate` after the named-month pattern
has failed: the `dd.mm.yy` pattern with its `yy < 50` century pivot,
then the generic `new Date(...)` parse, then the current date.  The
generic parser and the system clock are external to the embedded core;
they enter as the oracle `genericParse` (the `YYYY-MM-DD` rendering of
a successful generic parse) and `today`. -/
def parseDateAfterNamed (genericParse : String → Option String) (today : String)
    (ds : List Char) : String :=
  match periodFirst ds with
  | some (dd, mm, yy) =>
    (if natOfDigits yy < 50 then "20" ++ (⟨yy⟩ : String) else "19" ++ (⟨yy⟩ : String))
      ++ "-" ++ (⟨mm⟩ : String) ++ "-" ++ (⟨dd⟩ : String)
  | none =>
    match genericParse ⟨ds⟩ with
    | some d => d
    | none => today

/-- `parseInternationalDate`: lowercase and trim, then first-match-wins
over the named-month pattern (whose month must also be in the table),
the `dd.mm.yy` pattern, the generic parse, and the current date. -/
def parseInternationalDate (genericParse : String → Option String) (today : String)
    (dateStr : String) : String :=
  let ds := jsTrimList (jsToLower dateStr).data
  match germanFirst ds with
  | some (day, monthName, year) =>
    match monthLookup ⟨monthName⟩ with
    | some m => (⟨year⟩ : String) ++ "-" ++ pad2 m ++ "-" ++ pad2 (natOfDigits day)
    | none => parseDateAfterNamed genericParse today ds
  | none => parseDateAfterNamed genericParse today ds

/-! ## Line-item refiner (`extractServicePeriod`, service id) -/

/-- One attempt of `/(\d{2}\.\d{2}\.\d{2})-(\d{2}\.\d{2}\.\d{2})/`
at the current position; returns the two eight-character endpoint
substrings and the remainder of the list. -/
def rangeMatchAt : List Char → Option (List Char × List Char × List Char)
  | a1 :: a2 :: p1 :: a3 :: a4 :: p2 :: a5 :: a6 :: h :: b1 :: b2 :: q1 :: b3 ::
      b4 :: q2 :: b5 :: b6 :: rest =>
    if a1.isDigit && a2.isDigit && p1 == '.' && a3.isDigit && a4.isDigit &&
        p2 == '.' && a5.isDigit && a6.isDigit && h == '-' && b1.isDigit &&
        b2.isDigit && q1 == '.' && b3.isDigit && b4.isDigit && q2 == '.' &&
        b5.isDigit && b6.isDigit then
      some ([a1, a2, p1, a3, a4, p2, a5, a6], [b1, b2, q1, b3, b4, q2, b5, b6], rest)
    else none
  | _ => none

/-- Leftmost match of the date-range pattern, with the prefix before
the match returned so that `replace` can be expressed exactly. -/
def findRange : List Char → Option (List Char × List Char × List Char × List Char)
  | [] => none
  | c :: cs =>
    match rangeMatchAt (c :: cs) with
    | some (s8, e8, rest) => some ([], s8, e8, rest)
    | none =>
      match findRange cs with
      | some (pre, s8, e8, rest) => some (c :: pre, s8, e8, rest)
      | none => none

/-- `extractServicePeriod`: if the description embeds a
`dd.mm.yy-dd.mm.yy` range, remove the first matched substring (the
result trimmed) and return both endpoints through the date normalizer;
otherwise return the description unchanged with no period. -/
def extractServicePeriod (genericParse : String → Option String) (today : String)
    (description : String) : String × Option (String × String) :=
  match findRange description.data with
  | some (pre, s8, e8, rest) =>
    (jsTrim ⟨pre ++ rest⟩,
     some (parseInternationalDate genericParse today ⟨s8⟩,
           parseInternationalDate genericParse today ⟨e8⟩))
  | none => (description, none)

/-- The token class `[A-Z0-9_]` under the `i` flag. -/
def isTokenChar (c : Char) : Bool :=
  ('A' ≤ c && c ≤ 'Z') || ('a' ≤ c && c ≤ 'z') || c.isDigit || c = '_'

/-- Case-insensitive literal prefix match; returns the remainder. -/
def ciPrefix : List Char → List Char → Option (List Char)
  | [], l => some l
  | _ :: _, [] => none
  | p :: ps, c :: cs => if jsToLowerChar c == p then ciPrefix ps cs else none

/-- One attempt of `/(?:Dienst|Service):\s*([A-Z0-9_]+)/i` at the
current position; the captured token keeps its original case. -/
def serviceIdMatchAt (cs : List Char) : Option (List Char) :=
  let afterKw :=
    match ciPrefix "dienst".data cs with
    | some r => some r
    | none => ciPrefix "service".data cs
  match afterKw with
  | none => none
  | some r =>
    if headIs ':' r then
      let tok := (r.tail.dropWhile jsIsSpace).takeWhile isTokenChar
      if tok.isEmpty then none else some tok
    else none

/-- Leftmost match of the service-id pattern. -/
def findServiceId : List Char → Option (List Char)
  | [] => none
  | c :: cs =>
    match serviceIdMatchAt (c :: cs) with
    | some t => some t
    | none => findServiceId cs

/-! ## Facts about the date scanners -/

theorem isDigit_toNat {c : Char} (h : c.isDigit = true) :
    48 ≤ c.toNat ∧ c.toNat ≤ 57 := by
  simp only [Char.isDigit, Bool.and_eq_true, decide_eq_true_eq] at h
  exact ⟨h.1, h.2⟩

/-- Lowercasing is the identity on digits. -/
theorem jsToLowerChar_digit {c : Char} (h : c.isDigit = true) :
    jsToLowerChar c = c := by
  obtain ⟨h1, h2⟩ := isDigit_toNat h
  simp only [jsToLowerChar, if_neg (digit_ne h 'Ä' (by decide)),
    if_neg (digit_ne h 'Ö' (by decide)), if_neg (digit_ne h 'Ü' (by decide)),
    Char.toLower]
  rw [if_neg (by omega : ¬(Char.toNat c ≥ 65 ∧ Char.toNat c ≤ 90))]

/-- A digit is not in the `[a-zä]` class of the named-month pattern. -/
theorem isGermanLetter_digit {c : Char} (h : c.isDigit = true) :
    isGermanLetter c = false := by
  obtain ⟨h1, h2⟩ := isDigit_toNat h
  simp only [isGermanLetter]
  rw [show decide ('a' ≤ c) = false from
      decide_eq_false (fun hle => absurd (show 97 ≤ c.toNat from hle) (by omega)),
    show decide (c = 'ä') = false from decide_eq_false (digit_ne h 'ä' (by decide))]
  simp

/-- Mapping `jsToLowerChar` over a list it fixes is the identity. -/
theorem map_jsToLowerChar_id {l : List Char}
    (h : ∀ c ∈ l, jsToLowerChar c = c) : l.map jsToLowerChar = l := by
  induction l with
  | nil => rfl
  | cons c cs ih =>
    rw [List.map_cons, h c (List.mem_cons_self c cs),
      ih (fun d hd => h d (List.mem_cons_of_mem c hd))]

/-- Trimming a string with no whitespace is the identity. -/
theorem jsTrimList_eq_self {l : List Char}
    (h : ∀ c ∈ l, jsIsSpace c = false) : jsTrimList l = l := by
  unfold jsTrimList
  rw [dropWhile_eq_self_of_false h,
    dropWhile_eq_self_of_false (fun c hc => h c (List.mem_reverse.mp hc)),
    List.reverse_reverse]

/-- The named-month pattern cannot match a string with no `[a-zä]`
character at all. -/
theorem germanMatchAt_eq_none {l : List Char}
    (h : ∀ c ∈ l, isGermanLetter c = false) : germanMatchAt l = none := by
  unfold germanMatchAt
  by_cases hds : (l.takeWhile Char.isDigit).isEmpty
  · simp [hds]
  · simp only [hds, Bool.false_eq_true, if_false]
    cases hh : headIs '.' (l.dropWhile Char.isDigit) with
    | false => rfl
    | true =>
      simp only [if_true]
      have hsub : ((l.dropWhile Char.isDigit).tail.dropWhile jsIsSpace).Sublist l :=
        (((l.dropWhile Char.isDigit).tail.dropWhile_sublist jsIsSpace).trans
          ((l.dropWhile Char.isDigit).tail_sublist)).trans
          (l.dropWhile_sublist Char.isDigit)
      have hls : ((l.dropWhile Char.isDigit).tail.dropWhile jsIsSpace).takeWhile
          isGermanLetter = [] := by
        cases hr : (l.dropWhile Char.isDigit).tail.dropWhile jsIsSpace with
        | nil => rfl
        | cons x xs =>
          have hx : x ∈ l := hsub.subset (hr ▸ List.mem_cons_self x xs)
          rw [List.takeWhile_cons, h x hx]
          simp
      simp [hls]

/-- Leftmost-scan version of `germanMatchAt_eq_none`. -/
theorem germanFirst_eq_none {l : List Char}
    (h : ∀ c ∈ l, isGermanLetter c = false) : germanFirst l = none := by
  induction l with
  | nil => rfl
  | cons c cs ih =>
    unfold germanFirst
    rw [germanMatchAt_eq_none h, ih (fun d hd => h d (List.mem_cons_of_mem c hd))]

/-- C4: date recognition is first-match-wins: the named-month pattern
(German/English table, day zero-padded), then `dd.mm.yy` with the
`yy < 50` century pivot, then the generic parse formatted by the
oracle, then the current date; the function is total (never raises). -/
theorem parseDate_recognition :
    (∀ (gp : String → Option String) (today : String),
      parseInternationalDate gp today "7. Mai 2014" = "2014-05-07") ∧
    (∀ (gp : String → Option String) (today : String),
      parseInternationalDate gp today "01.05.14" = "2014-05-01") ∧
    (∀ (gp : String → Option String) (today : String),
      parseInternationalDate gp today "01.05.67" = "1967-05-01") ∧
    (∀ (gp : String → Option String) (today s : String)
        (day mn yr : List Char) (m : Nat),
      germanFirst (jsTrimList (jsToLower s).data) = some (day, mn, yr) →
      monthLookup ⟨mn⟩ = some m →
      parseInternationalDate gp today s
        = (⟨yr⟩ : String) ++ "-" ++ pad2 m ++ "-" ++ pad2 (natOfDigits day)) ∧
    (∀ (gp : String → Option String) (today s : String),
      germanFirst (jsTrimList (jsToLower s).data) = none →
      periodFirst (jsTrimList (jsToLower s).data) = none →
      parseInternationalDate gp today s
        = (gp ⟨jsTrimList (jsToLower s).data⟩).getD today) := by
  refine ⟨fun _ _ => rfl, fun _ _ => rfl, fun _ _ => rfl, ?_, ?_⟩
  · intro gp today s day mn yr m hg hm
    simp only [parseInternationalDate, hg, hm]
  · intro gp today s hg hp
    simp only [parseInternationalDate, hg, parseDateAfterNamed, hp]
    cases hgp : gp ⟨jsTrimList (jsToLower s).data⟩ <;> simp [hgp]

/-- Witness for C4: the three concrete recognitions, the named-month
priority case, and both fallback outcomes at an unparseable string. -/
theorem parseDate_recognition_witness :
    parseInternationalDate (fun _ => none) "2025-06-15" "7. Mai 2014" = "2014-05-07" ∧
    parseInternationalDate (fun _ => none) "2025-06-15" "01.05.14" = "2014-05-01" ∧
    parseInternationalDate (fun _ => none) "2025-06-15" "01.05.67" = "1967-05-01" ∧
    parseInternationalDate (fun _ => some "1999-12-31") "2025-06-15" "hello world"
      = "1999-12-31" ∧
    parseInternationalDate (fun _ => none) "2025-06-15" "hello world" = "2025-06-15" := by
  refine ⟨?_, parseDate_recognition.2.1 _ _, parseDate_recognition.2.2.1 _ _, ?_, ?_⟩
  · exact (parseDate_recognition.2.2.2.1 (fun _ => none) "2025-06-15" "7. Mai 2014"
      ['7'] "mai".data "2014".data 5 rfl rfl).trans rfl
  · exact (parseDate_recognition.2.2.2.2 (fun _ => some "1999-12-31") "2025-06-15"
      "hello world" rfl rfl).trans rfl
  · exact (parseDate_recognition.2.2.2.2 (fun _ => none) "2025-06-15"
      "hello world" rfl rfl).trans rfl

/-- C10: the `dd.mm.yy` pattern is matched unanchored, so on a
`dd.mm.yyyy` input (no letters, hence no named-month match) it grabs
the first two digits of the four-digit year and applies the century
pivot to them; in particular `01.05.2014` yields `2020-05-01`, not
`2014-05-01`. -/
theorem parseDate_unanchored_two_digit_year :
    (∀ (gp : String → Option String) (today : String) (d1 d2 m1 m2 y1 y2 y3 y4 : Char),
      d1.isDigit = true → d2.isDigit = true → m1.isDigit = true → m2.isDigit = true →
      y1.isDigit = true → y2.isDigit = true → y3.isDigit = true → y4.isDigit = true →
      parseInternationalDate gp today ⟨[d1, d2, '.', m1, m2, '.', y1, y2, y3, y4]⟩
        = (if natOfDigits [y1, y2] < 50 then "20" ++ (⟨[y1, y2]⟩ : String)
            else "19" ++ (⟨[y1, y2]⟩ : String))
          ++ "-" ++ (⟨[m1, m2]⟩ : String) ++ "-" ++ (⟨[d1, d2]⟩ : String)) ∧
    (∀ (gp : String → Option String) (today : String),
      parseInternationalDate gp today "01.05.2014" = "2020-05-01") := by
  constructor
  · intro gp today d1 d2 m1 m2 y1 y2 y3 y4 hd1 hd2 hm1 hm2 hy1 hy2 hy3 hy4
    have hmem : ∀ c ∈ [d1, d2, '.', m1, m2, '.', y1, y2, y3, y4],
        c.isDigit = true ∨ c = '.' := by
      intro c hc
      simp only [List.mem_cons, List.not_mem_nil, or_false] at hc
      rcases hc with rfl | rfl | rfl | rfl | rfl | rfl | rfl | rfl | rfl | rfl
      · exact Or.inl hd1
      · exact Or.inl hd2
      · exact Or.inr rfl
      · exact Or.inl hm1
      · exact Or.inl hm2
      · exact Or.inr rfl
      · exact Or.inl hy1
      · exact Or.inl hy2
      · exact Or.inl hy3
      · exact Or.inl hy4
    have hlow : List.map jsToLowerChar [d1, d2, '.', m1, m2, '.', y1, y2, y3, y4]
        = [d1, d2, '.', m1, m2, '.', y1, y2, y3, y4] :=
      map_jsToLowerChar_id (fun c hc => by
        rcases hmem c hc with h | rfl
        · exact jsToLowerChar_digit h
        · decide)
    have hnospace : ∀ c ∈ [d1, d2, '.', m1, m2, '.', y1, y2, y3, y4],
        jsIsSpace c = false := fun c hc => by
      rcases hmem c hc with h | rfl
      · exact digit_not_space h
      · decide
    have hds : jsTrimList (jsToLower ⟨[d1, d2, '.', m1, m2, '.', y1, y2, y3, y4]⟩).data
        = [d1, d2, '.', m1, m2, '.', y1, y2, y3, y4] := by
      show jsTrimList (List.map jsToLowerChar [d1, d2, '.', m1, m2, '.', y1, y2, y3, y4])
        = [d1, d2, '.', m1, m2, '.', y1, y2, y3, y4]
      rw [hlow, jsTrimList_eq_self hnospace]
    have hger : germanFirst [d1, d2, '.', m1, m2, '.', y1, y2, y3, y4] = none :=
      germanFirst_eq_none (fun c hc => by
        rcases hmem c hc with h | rfl
        · exact isGermanLetter_digit h
        · decide)
    have hmat : periodMatchAt [d1, d2, '.', m1, m2, '.', y1, y2, y3, y4]
        = some ([d1, d2], [m1, m2], [y1, y2]) := by
      simp [periodMatchAt, hd1, hd2, hm1, hm2, hy1, hy2]
    have hper : periodFirst [d1, d2, '.', m1, m2, '.', y1, y2, y3, y4]
        = some ([d1, d2], [m1, m2], [y1, y2]) := by
      unfold periodFirst
      rw [hmat]
    simp only [parseInternationalDate, hds, hger, parseDateAfterNamed, hper]
  · exact fun _ _ => rfl

/-- Witness for C10: a four-digit year on the other side of the pivot,
`31.12.1999`, is read as year `19` and expanded to `2019`. -/
theorem parseDate_unanchored_two_digit_year_witness :
    parseInternationalDate (fun _ => none) "2025-06-15" "31.12.1999" = "2019-12-31" := by
  have h := parseDate_unanchored_two_digit_year.1 (fun _ => none) "2025-06-15"
    '3' '1' '1' '2' '1' '9' '9' '9' (by decide) (by decide) (by decide) (by decide)
    (by decide) (by decide) (by decide) (by decide)
  exact h.trans (by decide)

/-- C8: a line-item description embedding a `dd.mm.yy-dd.mm.yy` range
is split into the description with the first matched substring removed
(trimmed) plus a service period whose endpoints go through the date
normalizer; a description with no such range is returned unchanged. -/
theorem extractServicePeriod_spec :
    (∀ (gp : String → Option String) (today : String) (d : String)
        (pre s8 e8 rest : List Char),
      findRange d.data = some (pre, s8, e8, rest) →
      extractServicePeriod gp today d
        = (jsTrim ⟨pre ++ rest⟩,
           some (parseInternationalDate gp today ⟨s8⟩,
                 parseInternationalDate gp today ⟨e8⟩))) ∧
    (∀ (gp : String → Option String) (today : String) (d : String),
      findRange d.data = none → extractServicePeriod gp today d = (d, none)) ∧
    (∀ (gp : String → Option String) (today : String),
      extractServicePeriod gp today "Hosting 01.05.14-15.05.14"
        = ("Hosting", some ("2014-05-01", "2014-05-15"))) := by
  refine ⟨?_, ?_, fun _ _ => rfl⟩
  · intro gp today d pre s8 e8 rest h
    simp only [extractServicePeriod, h]
  · intro gp today d h
    simp only [extractServicePeriod, h]

/-- Witness for C8 at the spec's example plus a range-free description. -/
theorem extractServicePeriod_spec_witness :
    extractServicePeriod (fun _ => none) "2025-06-15" "Hosting 01.05.14-15.05.14"
      = ("Hosting", some ("2014-05-01", "2014-05-15")) ∧
    extractServicePeriod (fun _ => none) "2025-06-15" "Consulting"
      = ("Consulting", none) := by
  constructor
  · exact (extractServicePeriod_spec.1 (fun _ => none) "2025-06-15"
      "Hosting 01.05.14-15.05.14" "Hosting ".data "01.05.14".data "15.05.14".data
      [] rfl).trans rfl
  · exact extractServicePeriod_spec.2.1 (fun _ => none) "2025-06-15" "Consulting" rfl

/-! ## Invoice normalizer (`cleanInvoiceData`, part_001 tool variant) -/

/-- A raw-or-cleaned line item as the tool variant of
`cleanInvoiceData` sees it: every field is JS-optional (`none` models
`undefined`), numbers may be `NaN`. -/
@[ext]
structure ItemRec where
  description : Option String
  quantity : Option (Option ℚ)
  unitPrice : Option StrOrNum
  total : Option StrOrNum
  serviceId : Option String
  servicePeriod : Option (String × String)
deriving DecidableEq, Repr

/-- A raw-or-cleaned invoice record for the tool variant of
`cleanInvoiceData`. -/
@[ext]
structure InvoiceRec where
  customerName : Option String
  customerAddress : Option String
  vendorName : Option String
  vendorAddress : Option String
  invoiceNumber : Option String
  invoiceDate : Option String
  dueDate : Option String
  amount : Option StrOrNum
  currency : Option String
  contractNumber : Option String
  lineItems : Option (List ItemRec)
deriving DecidableEq, Repr

/-- `x || 1` for an optional JS number (`undefined`, `NaN` and `0` are
falsy). -/
def jsNumOr1 : Option (Option ℚ) → ℚ
  | none => 1
  | some none => 1
  | some (some q) => if q = 0 then 1 else q

/-- `x || 0` for an optional JS `string | number` value (falsy:
`undefined`, `NaN`, `0`, and the empty string). -/
def jsValOr0 : Option StrOrNum → StrOrNum
  | none => .num (some 0)
  | some (.num none) => .num (some 0)
  | some (.num (some q)) => if q = 0 then .num (some 0) else .num (some q)
  | some (.str s) => if s = "" then .num (some 0) else .str s

/-- One line item through the tool normalizer: the service id is
scanned from the original description (and not removed from it), the
service period is extracted (first `dd.mm.yy-dd.mm.yy` range removed),
defaults are applied, and prices go through the amount parser.  The
previously stored `servicePeriod` of the item is not consulted: the
output period comes from the description alone. -/
def cleanLineItem (gp : String → Option String) (today : String)
    (item : ItemRec) : ItemRec :=
  let descInput : String := item.description.getD ""
  let res := extractServicePeriod gp today descInput
  { description := some (if res.1 = "" then "Unspecified item" else res.1),
    quantity := some (some (jsNumOr1 item.quantity)),
    unitPrice := some (.num (parseInternationalAmount (jsValOr0 item.unitPrice))),
    total := some (.num (parseInternationalAmount (jsValOr0 item.total))),
    serviceId := item.description.bind
      (fun d => (findServiceId d.data).map (fun t => (⟨t⟩ : String))),
    servicePeriod := res.2 }

/-- The cleaned amount of the tool normalizer: a present
string-or-number goes through `parseInternationalAmount`, anything
else becomes `0`. -/
def cleanedAmountTool (d : InvoiceRec) : Option ℚ :=
  match d.amount with
  | some v => parseInternationalAmount v
  | none => some 0

/-- The single default line item synthesized from the cleaned amount
when no line items were extracted. -/
def defaultLineItem (amt : Option ℚ) : ItemRec :=
  { description := some "Invoice total", quantity := some (some 1),
    unitPrice := some (.num amt), total := some (.num amt),
    serviceId := none, servicePeriod := none }

/-- `x ? x.trim() : ''` for the address fields. -/
def cleanAddr : Option String → String
  | some a => if a = "" then "" else jsTrim a
  | none => ""

/-- `if (x) x = x.toString().trim()` for the contract number. -/
def cleanContract : Option String → Option String
  | some c => if c = "" then some c else some (jsTrim c)
  | none => none

/-- `if (!x) x = '€'` for the currency. -/
def cleanCurrency : Option String → Option String
  | some c => if c = "" then some "€" else some c
  | none => some "€"

/-- The cleaned line-item list: refine each item when any exist,
otherwise synthesize the single default item from the cleaned amount. -/
def cleanLineItems (gp : String → Option String) (today : String)
    (amt : Option ℚ) : Option (List ItemRec) → List ItemRec
  | some l => if l.length > 0 then l.map (cleanLineItem gp today) else [defaultLineItem amt]
  | none => [defaultLineItem amt]

/-- `cleanInvoiceData` of the tool variant: amount through the
international parser (`0` when absent), addresses trimmed (empty when
falsy), line items refined — or the single default item synthesized
when none exist —, contract number trimmed when truthy, currency
defaulted to `€` when falsy; all other fields pass through. -/
def cleanInvoiceDataTool (gp : String → Option String) (today : String)
    (d : InvoiceRec) : InvoiceRec :=
  let amount : Option ℚ := cleanedAmountTool d
  { d with
    amount := some (.num amount),
    customerAddress := some (cleanAddr d.customerAddress),
    vendorAddress := some (cleanAddr d.vendorAddress),
    lineItems := some (cleanLineItems gp today amount d.lineItems),
    contractNumber := cleanContract d.contractNumber,
    currency := cleanCurrency d.currency }

/-! ### Trim idempotence -/

theorem dropWhile_idem (p : Char → Bool) (l : List Char) :
    (l.dropWhile p).dropWhile p = l.dropWhile p := by
  induction l with
  | nil => rfl
  | cons c cs ih =>
    by_cases hc : p c = true
    · simp [List.dropWhile_cons, hc, ih]
    · simp only [Bool.not_eq_true] at hc
      simp [List.dropWhile_cons, hc]

theorem dropWhile_prefix_fix {p : Char → Bool} {l m : List Char}
    (hl : l.dropWhile p = l) (hm : m <+: l) : m.dropWhile p = m := by
  cases m with
  | nil => rfl
  | cons x xs =>
    cases l with
    | nil => exact absurd (List.prefix_nil.mp hm) (by simp)
    | cons y ys =>
      obtain ⟨t, ht⟩ := hm
      have hxy : x = y := by
        have := congrArg (List.head? ·) ht
        simpa using this
      subst hxy
      have hpx : p x = false := by
        by_contra hpx
        simp only [Bool.not_eq_false] at hpx
        rw [List.dropWhile_cons, if_pos hpx] at hl
        have := congrArg List.length hl
        have hle := (List.dropWhile_sublist (l := ys) p).length_le
        simp at this
        omega
      simp [List.dropWhile_cons, hpx]

theorem jsTrimList_idem (l : List Char) :
    jsTrimList (jsTrimList l) = jsTrimList l := by
  unfold jsTrimList
  set p := jsIsSpace with hp
  set u := l.dropWhile p with hu
  set t := ((u.reverse.dropWhile p).reverse : List Char) with htdef
  have hufix : u.dropWhile p = u := dropWhile_idem p l
  have htpre : t <+: u := by
    rw [htdef]
    have : (u.reverse.dropWhile p) <:+ u.reverse := List.dropWhile_suffix p
    have := List.reverse_prefix.mpr this
    simpa using this
  have htfix : t.dropWhile p = t := dropWhile_prefix_fix hufix htpre
  rw [htfix, htdef, List.reverse_reverse, dropWhile_idem]

theorem jsTrim_idem (s : String) : jsTrim (jsTrim s) = jsTrim s :=
  congrArg (fun l => (⟨l⟩ : String)) (jsTrimList_idem s.data)

/-! ### Stability of the item cleaner on canonical items -/

theorem jsNumOr1_ne_zero (x : Option (Option ℚ)) : jsNumOr1 x ≠ 0 := by
  match x with
  | none => simp [jsNumOr1]
  | some none => simp [jsNumOr1]
  | some (some q) =>
    simp only [jsNumOr1]
    split
    · simp
    · assumption

theorem jsNumOr1_stable (x : Option (Option ℚ)) :
    jsNumOr1 (some (some (jsNumOr1 x))) = jsNumOr1 x := by
  show (if jsNumOr1 x = 0 then 1 else jsNumOr1 x) = jsNumOr1 x
  rw [if_neg (jsNumOr1_ne_zero x)]

theorem parse_jsValOr0_num (u : ℚ) :
    parseInternationalAmount (jsValOr0 (some (.num (some u)))) = some u := by
  by_cases hu : u = 0 <;> simp [jsValOr0, parseInternationalAmount, hu]

/-- A canonical price field parses to a real (non-`NaN`) number. -/
theorem canonical_price_parse {v : Option StrOrNum}
    (h : ∀ w, v = some w → ∃ q, w = .num (some q)) :
    ∃ u, parseInternationalAmount (jsValOr0 v) = some u := by
  match v with
  | none => exact ⟨0, rfl⟩
  | some w =>
    obtain ⟨q, rfl⟩ := h w rfl
    by_cases hq : q = 0
    · exact ⟨0, by simp [jsValOr0, hq, parseInternationalAmount]⟩
    · exact ⟨q, by simp [jsValOr0, hq, parseInternationalAmount]⟩

/-- A line item of a canonical invoice: its description embeds no
`dd.mm.yy-dd.mm.yy` range (all its dates are ISO), and its price
fields, when present, are real numbers (no strings, no `NaN`). -/
def ItemCanonical (it : ItemRec) : Prop :=
  findRange (it.description.getD "").data = none ∧
  (∀ w, it.unitPrice = some w → ∃ q, w = .num (some q)) ∧
  (∀ w, it.total = some w → ∃ q, w = .num (some q))

theorem cleanLineItem_stable (gp : String → Option String) (today : String)
    {it : ItemRec} (h : ItemCanonical it) :
    cleanLineItem gp today (cleanLineItem gp today it) = cleanLineItem gp today it := by
  obtain ⟨hR, hu, ht⟩ := h
  obtain ⟨u, hu'⟩ := canonical_price_parse hu
  obtain ⟨t0, ht'⟩ := canonical_price_parse ht
  have hq := jsNumOr1_stable it.quantity
  have hpu := parse_jsValOr0_num u
  have hpt := parse_jsValOr0_num t0
  have hunspec : extractServicePeriod gp today "Unspecified item"
      = ("Unspecified item", none) := rfl
  have hsvcu : findServiceId ("Unspecified item".data) = none := rfl
  have hsvce : findServiceId ([] : List Char) = none := rfl
  cases hdesc : it.description with
  | none =>
    have hext0 : extractServicePeriod gp today "" = ("", none) := rfl
    simp [cleanLineItem, hdesc, hext0, hunspec, hsvcu, hq, hu', ht', hpu, hpt]
  | some dd =>
    rw [hdesc] at hR
    simp only [Option.getD_some] at hR
    have hext : extractServicePeriod gp today dd = (dd, none) := by
      simp [extractServicePeriod, hR]
    by_cases hdd : dd = ""
    · subst hdd
      have hext0 : extractServicePeriod gp today "" = ("", none) := rfl
      simp [cleanLineItem, hdesc, hext0, hunspec, hsvcu, hsvce, hq, hu', ht', hpu, hpt]
    · simp [cleanLineItem, hdesc, hext, hdd, hq, hu', ht', hpu, hpt]

theorem cleanAddr_stable (x : Option String) :
    cleanAddr (some (cleanAddr x)) = cleanAddr x := by
  match x with
  | none => rfl
  | some a =>
    by_cases ha : a = ""
    · simp [cleanAddr, ha]
    · simp only [cleanAddr, if_neg ha]
      by_cases hta : jsTrim a = ""
      · simp [hta]
      · simp [hta, jsTrim_idem]

theorem cleanContract_stable (x : Option String) :
    cleanContract (cleanContract x) = cleanContract x := by
  match x with
  | none => rfl
  | some c =>
    by_cases hc : c = ""
    · simp [cleanContract, hc]
    · simp only [cleanContract, if_neg hc]
      by_cases htc : jsTrim c = ""
      · simp [cleanContract, htc]
      · simp [cleanContract, htc, jsTrim_idem]

theorem cleanCurrency_stable (x : Option String) :
    cleanCurrency (cleanCurrency x) = cleanCurrency x := by
  match x with
  | none => rfl
  | some c =>
    by_cases hc : c = ""
    · simp [cleanCurrency, hc]
    · simp [cleanCurrency, hc]

theorem cleanLineItem_default_stable (gp : String → Option String) (today : String)
    (q : ℚ) :
    cleanLineItem gp today (defaultLineItem (some q)) = defaultLineItem (some q) := by
  have hext : extractServicePeriod gp today "Invoice total" = ("Invoice total", none) := rfl
  have hsvc : findServiceId ("Invoice total".data) = none := rfl
  simp [cleanLineItem, defaultLineItem, hext, hsvc, jsNumOr1, parse_jsValOr0_num q]

/-- A canonical invoice: numeric (non-`NaN`) amount, and canonical
line items (an ISO-dated, symbol-free invoice in the sense of the spec
satisfies this: its descriptions carry no `dd.mm.yy` ranges and its
prices are numbers). -/
def InvoiceCanonical (d : InvoiceRec) : Prop :=
  (∃ q, d.amount = some (.num (some q))) ∧
  (∀ it ∈ d.lineItems.getD [], ItemCanonical it)

/-- C7: the tool normalizer is idempotent on canonical invoices:
running `cleanInvoiceData` on its own output again is the identity. -/
theorem cleanInvoiceData_idempotent (gp : String → Option String) (today : String)
    (d : InvoiceRec) (h : InvoiceCanonical d) :
    cleanInvoiceDataTool gp today (cleanInvoiceDataTool gp today d)
      = cleanInvoiceDataTool gp today d := by
  obtain ⟨⟨q, hq⟩, hitems⟩ := h
  have hamt : cleanedAmountTool d = some q := by
    simp [cleanedAmountTool, hq, parseInternationalAmount]
  set z := cleanInvoiceDataTool gp today d with hz
  have hza : z.amount = some (.num (some q)) := by
    simp [hz, cleanInvoiceDataTool, hamt]
  have hzamt : cleanedAmountTool z = some q := by
    simp [cleanedAmountTool, hza, parseInternationalAmount]
  have hzca : z.customerAddress = some (cleanAddr d.customerAddress) := by
    simp [hz, cleanInvoiceDataTool]
  have hzva : z.vendorAddress = some (cleanAddr d.vendorAddress) := by
    simp [hz, cleanInvoiceDataTool]
  have hzli : z.lineItems = some (cleanLineItems gp today (cleanedAmountTool d)
      d.lineItems) := by
    simp [hz, cleanInvoiceDataTool]
  have hzcn : z.contractNumber = cleanContract d.contractNumber := by
    simp [hz, cleanInvoiceDataTool]
  have hzcu : z.currency = cleanCurrency d.currency := by
    simp [hz, cleanInvoiceDataTool]
  have hliStable : cleanLineItems gp today (some q) z.lineItems
      = cleanLineItems gp today (cleanedAmountTool d) d.lineItems := by
    rw [hzli, hamt]
    cases hdl : d.lineItems with
    | none =>
      simp only [cleanLineItems, List.length_cons, List.length_nil]
      rw [if_pos (by omega)]
      simp [cleanLineItem_default_stable]
    | some l =>
      by_cases hl : l.length > 0
      · simp only [cleanLineItems, if_pos hl]
        have hml : (l.map (cleanLineItem gp today)).length > 0 := by
          simpa using hl
        rw [if_pos hml, List.map_map]
        refine List.map_congr_left (fun it hit => ?_)
        show cleanLineItem gp today (cleanLineItem gp today it) = cleanLineItem gp today it
        exact cleanLineItem_stable gp today (hitems it (by rw [hdl]; exact hit))
      · simp only [cleanLineItems, if_neg hl]
        simp only [List.length_cons, List.length_nil]
        rw [if_pos (by omega)]
        simp [cleanLineItem_default_stable]
  refine InvoiceRec.ext rfl ?_ rfl ?_ rfl rfl rfl ?_ ?_ ?_ ?_
  · show some (cleanAddr z.customerAddress) = z.customerAddress
    rw [hzca]
    exact congrArg some (cleanAddr_stable _)
  · show some (cleanAddr z.vendorAddress) = z.vendorAddress
    rw [hzva]
    exact congrArg some (cleanAddr_stable _)
  · show some (.num (cleanedAmountTool z)) = z.amount
    rw [hzamt, hza]
  · show cleanCurrency z.currency = z.currency
    rw [hzcu]
    exact cleanCurrency_stable _
  · show cleanContract z.contractNumber = z.contractNumber
    rw [hzcn]
    exact cleanContract_stable _
  · show some (cleanLineItems gp today (cleanedAmountTool z) z.lineItems) = z.lineItems
    rw [hzamt, hliStable, hzli]

/-- A concrete canonical line item used by the idempotence witness. -/
def sampleCanonicalItem : ItemRec :=
  { description := some "Consulting", quantity := some (some 2),
    unitPrice := some (.num (some 50)), total := some (.num (some 100)),
    serviceId := none, servicePeriod := none }

/-- A concrete canonical invoice used by the idempotence witness. -/
def sampleCanonicalInvoice : InvoiceRec :=
  { customerName := some "Acme GmbH", customerAddress := some "Berlin",
    vendorName := some "Vendor AG", vendorAddress := none,
    invoiceNumber := some "INV-1", invoiceDate := some "2014-05-07",
    dueDate := none, amount := some (.num (some 100)),
    currency := some "€", contractNumber := none,
    lineItems := some [sampleCanonicalItem] }

/-- A concrete invoice with no extracted line items. -/
def sampleNoItemsInvoice : InvoiceRec :=
  { customerName := none, customerAddress := none, vendorName := none,
    vendorAddress := none, invoiceNumber := none, invoiceDate := none,
    dueDate := none, amount := some (.num (some 250)), currency := none,
    contractNumber := none, lineItems := none }

/-- A concrete invoice whose amount string does not parse. -/
def sampleNanInvoice : InvoiceRec :=
  { sampleNoItemsInvoice with amount := some (.str "xyz") }

/-- Witness for C7 at a concrete canonical invoice. -/
theorem cleanInvoiceData_idempotent_witness :
    cleanInvoiceDataTool (fun _ => none) "2025-06-15"
        (cleanInvoiceDataTool (fun _ => none) "2025-06-15" sampleCanonicalInvoice)
      = cleanInvoiceDataTool (fun _ => none) "2025-06-15" sampleCanonicalInvoice := by
  refine cleanInvoiceData_idempotent _ _ _ ⟨⟨100, rfl⟩, ?_⟩
  intro it hit
  simp only [sampleCanonicalInvoice, Option.getD_some, List.mem_singleton] at hit
  subst hit
  refine ⟨rfl, ?_, ?_⟩
  · intro w hw
    exact ⟨50, (Option.some.inj hw).symm⟩
  · intro w hw
    exact ⟨100, (Option.some.inj hw).symm⟩

/-- C9: when the raw extraction has no line items (absent or empty),
the normalizer synthesizes exactly the one default item — description
`Invoice total`, quantity `1`, unit price and total equal to the
cleaned invoice amount — and the cleaned line-item list is never
empty. -/
theorem lineItems_default_synthesis :
    (∀ (gp : String → Option String) (today : String) (d : InvoiceRec),
      d.lineItems = none ∨ d.lineItems = some [] →
      (cleanInvoiceDataTool gp today d).lineItems
        = some [defaultLineItem (cleanedAmountTool d)]) ∧
    (∀ (gp : String → Option String) (today : String) (d : InvoiceRec),
      ∃ x xs, (cleanInvoiceDataTool gp today d).lineItems = some (x :: xs)) := by
  constructor
  · intro gp today d hd
    rcases hd with hd | hd <;> simp [cleanInvoiceDataTool, cleanLineItems, hd]
  · intro gp today d
    cases hd : d.lineItems with
    | none =>
      exact ⟨defaultLineItem (cleanedAmountTool d), [],
        by simp [cleanInvoiceDataTool, cleanLineItems, hd]⟩
    | some l =>
      cases l with
      | nil =>
        exact ⟨defaultLineItem (cleanedAmountTool d), [],
          by simp [cleanInvoiceDataTool, cleanLineItems, hd]⟩
      | cons x xs =>
        refine ⟨cleanLineItem gp today x, xs.map (cleanLineItem gp today), ?_⟩
        simp [cleanInvoiceDataTool, cleanLineItems, hd]

/-- Witness for C9: an invoice with absent line items gets the single
`Invoice total` item carrying its amount. -/
theorem lineItems_default_synthesis_witness :
    (cleanInvoiceDataTool (fun _ => none) "2025-06-15" sampleNoItemsInvoice).lineItems
      = some [defaultLineItem (some 250)] :=
  (lineItems_default_synthesis.1 (fun _ => none) "2025-06-15" sampleNoItemsInvoice
    (Or.inl rfl)).trans rfl

/-- Counterexample to C6 as stated: a string that does not parse as a
number yields `NaN` (`none`) from `parseInternationalAmount` during
field-level cleanup — not the claimed `0` (the `catch`-based `0`
fallback is unreachable because `parseFloat` never throws). -/
theorem parseAmount_unparseable_counterexample :
    parseInternationalAmount (.str "xyz") = none ∧ (none : Option ℚ) ≠ some 0 :=
  ⟨rfl, by simp⟩

/-- C6 amended: `parseAmount` is total (never raises) and always
returns a JS number, `NaN` included; numeric inputs pass through; a
string that fails to parse is stored as `NaN` by the field-level
cleanup (not `0`), while the best-effort path's `parseFloat(...) || 1.0`
turns a failed parse into the configured default `1.0`. -/
theorem parseAmount_fallback_amended :
    (∀ n, parseInternationalAmount (.num n) = n) ∧
    (∀ (gp : String → Option String) (today : String) (d : InvoiceRec) (s : String),
      d.amount = some (.str s) →
      (cleanInvoiceDataTool gp today d).amount
        = some (.num (parseInternationalAmount (.str s)))) ∧
    (∀ s : String, jsParseFloatList (jsTrimList (s.data.filter
        (fun c => !(c = '$' || c = ',' || c = '£' || c = '€')))) = none →
      procCleanAmount (some (.str s)) = some 1) := by
  refine ⟨fun n => rfl, ?_, ?_⟩
  · intro gp today d s h
    simp [cleanInvoiceDataTool, cleanedAmountTool, h]
  · intro s h
    show (match jsParseFloatList (jsTrimList (s.data.filter
        (fun c => !(c = '$' || c = ',' || c = '£' || c = '€')))) with
      | none => some 1
      | some q => if q = 0 then some 1 else some q) = some 1
    rw [h]

/-- Witness for the amended C6 at the unparseable string `"xyz"`. -/
theorem parseAmount_fallback_amended_witness :
    (cleanInvoiceDataTool (fun _ => none) "2025-06-15" sampleNanInvoice).amount
      = some (.num none) ∧
    procCleanAmount (some (.str "xyz")) = some 1 := by
  constructor
  · exact (parseAmount_fallback_amended.2.1 (fun _ => none) "2025-06-15"
      sampleNanInvoice "xyz" rfl).trans rfl
  · exact parseAmount_fallback_amended.2.2 "xyz" rfl

/-! ## Extraction-result JSON recovery (`extractInvoiceData` strategies) -/

/-- JSON values.  Numbers are rationals (JSON numbers are decimal). -/
inductive Json where
  | null
  | bool (b : Bool)
  | num (q : ℚ)
  | str (s : String)
  | arr (elems : List Json)
  | obj (fields : List (String × Json))

/-- JSON whitespace (`JSON.parse` accepts exactly these four). -/
def jsonIsWs (c : Char) : Bool :=
  c = ' ' || c = '\t' || c = '\n' || c = '\r'

/-- Hexadecimal digit value for `\u` escapes. -/
def hexVal (c : Char) : Option Nat :=
  if c.isDigit then some (c.toNat - 48)
  else if 'a' ≤ c && c ≤ 'f' then some (c.toNat - 87)
  else if 'A' ≤ c && c ≤ 'F' then some (c.toNat - 55)
  else none

/-- Strict JSON number: optional minus, integer part without leading
zeros, optional fraction, optional exponent. -/
def parseJsonNumber (cs : List Char) : Except String (Json × List Char) :=
  let neg := headIs '-' cs
  let cs1 := if neg then cs.tail else cs
  let ds := cs1.takeWhile Char.isDigit
  if ds.isEmpty then .error "invalid number"
  else if ds.length > 1 && headIs '0' ds then .error "leading zero"
  else
    let rest := cs1.dropWhile Char.isDigit
    let frac := if headIs '.' rest then rest.tail.takeWhile Char.isDigit else []
    let rest2 := if headIs '.' rest then rest.tail.dropWhile Char.isDigit else rest
    if headIs '.' rest && frac.isEmpty then .error "invalid number"
    else
      let mant : ℚ :=
        (if neg then -1 else 1) * (digitsVal ds + digitsVal frac / (10 : ℚ) ^ frac.length)
      if headIs 'e' rest2 || headIs 'E' rest2 then
        let r3 := rest2.tail
        let esign : Int := if headIs '-' r3 then -1 else 1
        let r4 := if headIs '-' r3 || headIs '+' r3 then r3.tail else r3
        let eds := r4.takeWhile Char.isDigit
        if eds.isEmpty then .error "invalid exponent"
        else .ok (.num (mant * (10 : ℚ) ^ (esign * (natOfDigits eds : Int))),
          r4.dropWhile Char.isDigit)
      else .ok (.num mant, rest2)

/-- JSON string body after the opening quote, with escapes. -/
def parseJsonStringRest : Nat → List Char → List Char → Except String (String × List Char)
  | 0, _, _ => .error "out of fuel"
  | fuel + 1, cs, acc =>
    match cs with
    | [] => .error "unterminated string"
    | '"' :: r => .ok (⟨acc.reverse⟩, r)
    | '\\' :: e :: r =>
      if e = 'u' then
        match r with
        | h1 :: h2 :: h3 :: h4 :: r2 =>
          match hexVal h1, hexVal h2, hexVal h3, hexVal h4 with
          | some a, some b, some c, some d =>
            parseJsonStringRest fuel r2
              (Char.ofNat (((a * 16 + b) * 16 + c) * 16 + d) :: acc)
          | _, _, _, _ => .error "invalid unicode escape"
        | _ => .error "invalid unicode escape"
      else
        let ec : Option Char :=
          if e = '"' then some '"' else if e = '\\' then some '\\'
          else if e = '/' then some '/' else if e = 'b' then some '\x08'
          else if e = 'f' then some '\x0c' else if e = 'n' then some '\n'
          else if e = 'r' then some '\r' else if e = 't' then some '\t'
          else none
        match ec with
        | some c => parseJsonStringRest fuel r (c :: acc)
        | none => .error "invalid escape"
    | c :: r => parseJsonStringRest fuel r (c :: acc)

mutual

/-- One JSON value, returning the unconsumed remainder. -/
def parseJsonValue : Nat → List Char → Except String (Json × List Char)
  | 0, _ => .error "out of fuel"
  | fuel + 1, cs0 =>
    let cs := cs0.dropWhile jsonIsWs
    match cs with
    | [] => .error "unexpected end of input"
    | c :: rest =>
      if c = '{' then
        let rest1 := rest.dropWhile jsonIsWs
        match rest1 with
        | '}' :: r => .ok (.obj [], r)
        | _ => parseJsonMembers fuel rest1 []
      else if c = '[' then
        let rest1 := rest.dropWhile jsonIsWs
        match rest1 with
        | ']' :: r => .ok (.arr [], r)
        | _ => parseJsonElements fuel rest1 []
      else if c = '"' then
        match parseJsonStringRest (fuel + 1) rest [] with
        | .ok (s, r) => .ok (.str s, r)
        | .error e => .error e
      else if c = 't' then
        match rest with
        | 'r' :: 'u' :: 'e' :: r => .ok (.bool true, r)
        | _ => .error "invalid literal"
      else if c = 'f' then
        match rest with
        | 'a' :: 'l' :: 's' :: 'e' :: r => .ok (.bool false, r)
        | _ => .error "invalid literal"
      else if c = 'n' then
        match rest with
        | 'u' :: 'l' :: 'l' :: r => .ok (.null, r)
        | _ => .error "invalid literal"
      else parseJsonNumber cs

/-- Members of a JSON object after `{` (non-empty case). -/
def parseJsonMembers : Nat → List Char → List (String × Json) →
    Except String (Json × List Char)
  | 0, _, _ => .error "out of fuel"
  | fuel + 1, cs, acc =>
    let cs1 := cs.dropWhile jsonIsWs
    match cs1 with
    | '"' :: r =>
      match parseJsonStringRest (fuel + 1) r [] with
      | .error e => .error e
      | .ok (key, r1) =>
        let r2 := r1.dropWhile jsonIsWs
        match r2 with
        | ':' :: r3 =>
          match parseJsonValue fuel r3 with
          | .error e => .error e
          | .ok (v, r4) =>
            let r5 := r4.dropWhile jsonIsWs
            match r5 with
            | ',' :: r6 => parseJsonMembers fuel r6 (acc ++ [(key, v)])
            | '}' :: r6 => .ok (.obj (acc ++ [(key, v)]), r6)
            | _ => .error "expected comma or closing brace"
        | _ => .error "expected colon"
    | _ => .error "expected string key"

/-- Elements of a JSON array after `[` (non-empty case). -/
def parseJsonElements : Nat → List Char → List Json →
    Except String (Json × List Char)
  | 0, _, _ => .error "out of fuel"
  | fuel + 1, cs, acc =>
    match parseJsonValue fuel cs with
    | .error e => .error e
    | .ok (v, r) =>
      let r1 := r.dropWhile jsonIsWs
      match r1 with
      | ',' :: r2 => parseJsonElements fuel r2 (acc ++ [v])
      | ']' :: r2 => .ok (.arr (acc ++ [v]), r2)
      | _ => .error "expected comma or closing bracket"

end

/-- `JSON.parse`: one value, whole input consumed (modulo whitespace). -/
def jsonParse (s : String) : Except String Json :=
  match parseJsonValue (s.data.length + 2) s.data with
  | .error e => .error e
  | .ok (v, rest) =>
    if (rest.dropWhile jsonIsWs).isEmpty then .ok v
    else .error "unexpected trailing characters"

/-- Split at the first occurrence of `pat`: `(before, after)`. -/
def dropPrefixQ (pat l : List Char) : Option (List Char) :=
  if l.take pat.length = pat then some (l.drop pat.length) else none

/-- First occurrence of `pat` in the list: the part before it and the
part after it. -/
def splitFirst (pat : List Char) : List Char → Option (List Char × List Char)
  | [] =>
    match dropPrefixQ pat [] with
    | some r => some ([], r)
    | none => none
  | c :: cs =>
    match dropPrefixQ pat (c :: cs) with
    | some r => some ([], r)
    | none =>
      match splitFirst pat cs with
      | some (pre, post) => some (c :: pre, post)
      | none => none

/-- First match of `/\x60\x60\x60(?:json)?\s*([\s\S]*?)\s*\x60\x60\x60/`:
the interior between the first fence (less an optional `json` tag) and
the next fence.  The surrounding `\s*` only trims the captured group,
and the caller trims again, so returning the raw interior is exact. -/
def matchCodeFence (txt : List Char) : Option (List Char) :=
  match splitFirst "\x60\x60\x60".data txt with
  | none => none
  | some (_, afterOpen) =>
    let body :=
      match dropPrefixQ "json".data afterOpen with
      | some r => r
      | none => afterOpen
    match splitFirst "\x60\x60\x60".data body with
    | none => none
    | some (inner, _) => some inner

/-- The prefix of `l` up to and including the last occurrence of `c`. -/
def takeUpToLast (c : Char) (l : List Char) : List Char :=
  (l.reverse.dropWhile (fun x => !(x = c))).reverse

/-- First match of the greedy `/(\{[\s\S]*\})/`: from the first `{`
to the last `}` after it; `none` when no such substring exists. -/
def braceMatch (txt : List Char) : Option (List Char) :=
  match splitFirst ['{'] txt with
  | none => none
  | some (_, afterBrace) =>
    if afterBrace.contains '}' then some ('{' :: takeUpToLast '}' afterBrace)
    else none

/-- The three JSON-recovery strategies of `extractInvoiceData`, in
source order: fenced block (falling back to the whole text when there
is no fence), whole trimmed text, greedy brace substring — with the
greedy strategy's `|| [null, '\x7b\x7d']` default, which parses the
literal `\x7b\x7d` when no brace substring exists at all. -/
def extractInvoiceJson (responseText : String) : Except String Json :=
  let attempt1 : Except String Json :=
    match matchCodeFence responseText.data with
    | some inner => jsonParse (jsTrim ⟨inner⟩)
    | none => jsonParse (jsTrim responseText)
  match attempt1 with
  | .ok j => .ok j
  | .error _ =>
    match jsonParse (jsTrim responseText) with
    | .ok j => .ok j
    | .error _ =>
      match braceMatch responseText.data with
      | some sub =>
        match jsonParse ⟨sub⟩ with
        | .ok j => .ok j
        | .error _ => .error "Failed to parse any valid JSON from AI response"
      | none =>
        match jsonParse "\x7b\x7d" with
        | .ok j => .ok j
        | .error _ => .error "Failed to parse any valid JSON from AI response"

/-- Counterexample to C2 as stated: on a text with no brace substring
at all, every parse fails yet the parser silently returns the empty
object instead of failing — the `|| [null, '\x7b\x7d']` default makes
the third strategy parse the literal `\x7b\x7d`, which succeeds. -/
theorem extractJson_empty_object_counterexample :
    extractInvoiceJson "hello" = .ok (.obj []) ∧
    ∀ e : String, extractInvoiceJson "hello" ≠ .error e := by
  refine ⟨rfl, ?_⟩
  intro e h
  rw [show extractInvoiceJson "hello" = .ok (.obj []) from rfl] at h
  exact Except.noConfusion h

/-- C2 amended: the strategies run in order — fenced block (or whole
text when no fence), whole trimmed text, greedy brace substring — and
the first success wins; the extraction-parse error is thrown exactly
when the first two strategies fail and a brace substring exists but
does not parse; when no brace substring exists, the parser silently
yields the empty object rather than failing. -/
theorem extractJson_recovery_amended :
    (∀ (txt : String) (inner : List Char) (j : Json),
      matchCodeFence txt.data = some inner →
      jsonParse (jsTrim ⟨inner⟩) = .ok j →
      extractInvoiceJson txt = .ok j) ∧
    (∀ (txt e1 : String) (j : Json),
      (match matchCodeFence txt.data with
        | some inner => jsonParse (jsTrim ⟨inner⟩)
        | none => jsonParse (jsTrim txt)) = .error e1 →
      jsonParse (jsTrim txt) = .ok j →
      extractInvoiceJson txt = .ok j) ∧
    (∀ (txt e1 e2 : String) (sub : List Char) (j : Json),
      (match matchCodeFence txt.data with
        | some inner => jsonParse (jsTrim ⟨inner⟩)
        | none => jsonParse (jsTrim txt)) = .error e1 →
      jsonParse (jsTrim txt) = .error e2 →
      braceMatch txt.data = some sub →
      jsonParse ⟨sub⟩ = .ok j →
      extractInvoiceJson txt = .ok j) ∧
    (∀ (txt e1 e2 e3 : String) (sub : List Char),
      (match matchCodeFence txt.data with
        | some inner => jsonParse (jsTrim ⟨inner⟩)
        | none => jsonParse (jsTrim txt)) = .error e1 →
      jsonParse (jsTrim txt) = .error e2 →
      braceMatch txt.data = some sub →
      jsonParse ⟨sub⟩ = .error e3 →
      extractInvoiceJson txt
        = .error "Failed to parse any valid JSON from AI response") ∧
    (∀ (txt e1 e2 : String),
      (match matchCodeFence txt.data with
        | some inner => jsonParse (jsTrim ⟨inner⟩)
        | none => jsonParse (jsTrim txt)) = .error e1 →
      jsonParse (jsTrim txt) = .error e2 →
      braceMatch txt.data = none →
      extractInvoiceJson txt = .ok (.obj [])) := by
  refine ⟨?_, ?_, ?_, ?_, ?_⟩
  · intro txt inner j hf hp
    simp only [extractInvoiceJson, hf, hp]
  · intro txt e1 j h1 h2
    simp only [extractInvoiceJson]
    rw [h1]
    simp only [h2]
  · intro txt e1 e2 sub j h1 h2 h3 h4
    simp only [extractInvoiceJson]
    rw [h1]
    simp only [h2, h3, h4]
  · intro txt e1 e2 e3 sub h1 h2 h3 h4
    simp only [extractInvoiceJson]
    rw [h1]
    simp only [h2, h3, h4]
  · intro txt e1 e2 h1 h2 h3
    simp only [extractInvoiceJson]
    rw [h1]
    simp only [h2, h3, show jsonParse "\x7b\x7d" = .ok (.obj []) from rfl]

/-- Witness for the amended C2: one concrete text per strategy branch —
fenced JSON, bare JSON shadowed by a failing fence, JSON embedded in
prose, a brace substring that is not JSON (the only error case), and a
brace-free text (the silent empty object). -/
theorem extractJson_recovery_amended_witness :
    extractInvoiceJson "pre \x60\x60\x60json\n\x7b\"a\": \"b\"\x7d\n\x60\x60\x60 post"
      = .ok (.obj [("a", .str "b")]) ∧
    extractInvoiceJson "\x7b\"a\": \"\x60\x60\x60\x60\x60\x60\"\x7d"
      = .ok (.obj [("a", .str "\x60\x60\x60\x60\x60\x60")]) ∧
    extractInvoiceJson "The data: \x7b\"a\": \"b\"\x7d thanks"
      = .ok (.obj [("a", .str "b")]) ∧
    extractInvoiceJson "\x7b not json \x7d"
      = .error "Failed to parse any valid JSON from AI response" ∧
    extractInvoiceJson "hello" = .ok (.obj []) := by
  refine ⟨?_, ?_, ?_, ?_, ?_⟩
  · exact extractJson_recovery_amended.1
      "pre \x60\x60\x60json\n\x7b\"a\": \"b\"\x7d\n\x60\x60\x60 post"
      ("\n\x7b\"a\": \"b\"\x7d\n").data (.obj [("a", .str "b")]) rfl rfl
  · exact extractJson_recovery_amended.2.1
      "\x7b\"a\": \"\x60\x60\x60\x60\x60\x60\"\x7d" "unexpected end of input"
      (.obj [("a", .str "\x60\x60\x60\x60\x60\x60")]) rfl rfl
  · exact extractJson_recovery_amended.2.2.1
      "The data: \x7b\"a\": \"b\"\x7d thanks" "invalid number"
      "invalid number" ("\x7b\"a\": \"b\"\x7d").data (.obj [("a", .str "b")])
      rfl rfl rfl rfl
  · exact extractJson_recovery_amended.2.2.2.1
      "\x7b not json \x7d" "expected string key" "expected string key"
      "expected string key" ("\x7b not json \x7d").data rfl rfl rfl rfl
  · exact extractJson_recovery_amended.2.2.2.2 "hello" "invalid number"
      "invalid number" rfl rfl rfl

/-! ## Invoice store and reconciliation (`processInvoice.execute`) -/

/-- A stored invoice row.  `generateUUID` is modelled by a counter
supplying fresh identifiers; `createdAt` by the abstract clock value
`now` of the store. -/
@[ext]
structure StoredInvoice where
  id : Nat
  customerName : String
  vendorName : String
  invoiceNumber : String
  invoiceDate : String
  dueDate : Option String
  amount : ℚ
  filePath : Option String
  createdAt : Nat
deriving DecidableEq, Repr

/-- A validated line item (the `process-invoice.ts` schema: optional
quantity and unit price, required total). -/
structure LineItemData where
  description : String
  quantity : Option ℚ
  unitPrice : Option ℚ
  total : ℚ
deriving DecidableEq, Repr

/-- A stored line-item row. -/
@[ext]
structure StoredLineItem where
  id : Nat
  invoiceId : Nat
  description : String
  quantity : Option ℚ
  unitPrice : Option ℚ
  total : ℚ
  createdAt : Nat
deriving DecidableEq, Repr

/-- The SQLite store together with the fresh-identifier counter and
the clock. -/
@[ext]
structure Db where
  invoices : List StoredInvoice
  lineItems : List StoredLineItem
  nextId : Nat
  now : Nat
deriving DecidableEq, Repr

/-- `findDuplicateInvoice`: the first row matching the business key
`(invoiceNumber, vendorName)` exactly (`.get()` returns one row). -/
def findDuplicateInvoice (db : Db) (invoiceNumber vendorName : String) :
    Option StoredInvoice :=
  db.invoices.find?
    (fun i => i.invoiceNumber == invoiceNumber && i.vendorName == vendorName)

/-- `saveInvoice`: insert a new row with a fresh identifier and return
the identifier. -/
def saveInvoice (db : Db) (customerName vendorName invoiceNumber invoiceDate : String)
    (dueDate : Option String) (amount : ℚ) (filePath : Option String) : Nat × Db :=
  (db.nextId,
   { db with
     invoices := db.invoices ++
       [{ id := db.nextId, customerName := customerName, vendorName := vendorName,
          invoiceNumber := invoiceNumber, invoiceDate := invoiceDate,
          dueDate := dueDate, amount := amount, filePath := filePath,
          createdAt := db.now }],
     nextId := db.nextId + 1 })

/-- Drizzle's `.set()` skips `undefined` fields: a present candidate
value replaces the stored one, an absent candidate leaves the stored
value untouched. -/
def setOptional (candidate stored : Option String) : Option String :=
  match candidate with
  | some v => some v
  | none => stored

/-- `updateInvoice`: set the scalar fields of the row with the given
identifier in place (identifier, file path and creation time are not
touched).  The due date is the only optional field at its call site,
so it alone goes through the skip-`undefined` semantics of `.set()`:
an absent candidate due date preserves the stored one. -/
def updateInvoice (db : Db) (id : Nat)
    (customerName vendorName invoiceNumber invoiceDate : String)
    (dueDate : Option String) (amount : ℚ) : Db :=
  { db with
    invoices := db.invoices.map (fun i =>
      if i.id = id then
        { i with
          customerName := customerName, vendorName := vendorName,
          invoiceNumber := invoiceNumber, invoiceDate := invoiceDate,
          dueDate := setOptional dueDate i.dueDate, amount := amount }
      else i) }

/-- `deleteLineItemsByInvoiceId`: remove every line item of the given
invoice. -/
def deleteLineItemsByInvoiceId (db : Db) (invoiceId : Nat) : Db :=
  { db with lineItems := db.lineItems.filter (fun li => !(li.invoiceId == invoiceId)) }

/-- `saveLineItems`: insert the items in submission order, each with a
fresh identifier and the current creation time. -/
def saveLineItems (db : Db) (invoiceId : Nat) : List LineItemData → Db
  | [] => db
  | it :: rest =>
    saveLineItems
      { db with
        lineItems := db.lineItems ++
          [{ id := db.nextId, invoiceId := invoiceId, description := it.description,
             quantity := it.quantity, unitPrice := it.unitPrice, total := it.total,
             createdAt := db.now }],
        nextId := db.nextId + 1 }
      invoiceId rest

/-- The validated invoice payload (`invoiceDataSchema`). -/
structure InvoiceData where
  customerName : String
  vendorName : String
  invoiceNumber : String
  invoiceDate : String
  dueDate : Option String
  amount : ℚ
  lineItems : Option (List LineItemData)
deriving DecidableEq, Repr

/-- The reconciliation result shapes of `processInvoice.execute`:
`success` carries the message and `{id, ...invoiceData}`, `duplicate`
carries the error, the message and the existing record. -/
inductive ProcessResult where
  | success (message : String) (invoiceId : Nat) (data : InvoiceData)
  | duplicate (error message : String) (existingInvoice : StoredInvoice)
deriving DecidableEq, Repr

/-- The reconciliation section of `processInvoice.execute` (the logic
from the duplicate lookup through persistence, lines 102–177): no
match inserts a new record and its line items; a match with
`updateIfExists` false mutates nothing and reports the duplicate; a
match with `updateIfExists` true updates the scalars in place, deletes
the old line items and inserts the new set. -/
def reconcileInvoice (db : Db) (d : InvoiceData) (updateIfExists : Bool)
    (filePath : String) : ProcessResult × Db :=
  match findDuplicateInvoice db d.invoiceNumber d.vendorName with
  | some existingInvoice =>
    if updateIfExists then
      let db1 := updateInvoice db existingInvoice.id d.customerName d.vendorName
        d.invoiceNumber d.invoiceDate d.dueDate d.amount
      let db2 := deleteLineItemsByInvoiceId db1 existingInvoice.id
      let db3 :=
        match d.lineItems with
        | some items =>
          if items.length > 0 then saveLineItems db2 existingInvoice.id items else db2
        | none => db2
      (.success "Invoice updated successfully" existingInvoice.id d, db3)
    else
      (.duplicate "Duplicate invoice"
        ("An invoice with the number " ++ d.invoiceNumber ++ " from vendor "
          ++ d.vendorName ++ " already exists.") existingInvoice, db)
  | none =>
    let idDb := saveInvoice db d.customerName d.vendorName d.invoiceNumber
      d.invoiceDate d.dueDate d.amount (some filePath)
    let db2 :=
      match d.lineItems with
      | some items =>
        if items.length > 0 then saveLineItems idDb.2 idDb.1 items else idDb.2
      | none => idDb.2
    (.success "Invoice processed successfully" idDb.1 d, db2)

/-- The stored rows `saveLineItems` appends, with identifiers counting
up from `startId`. -/
def tagLineItems (invoiceId startId now : Nat) : List LineItemData → List StoredLineItem
  | [] => []
  | it :: rest =>
    { id := startId, invoiceId := invoiceId, description := it.description,
      quantity := it.quantity, unitPrice := it.unitPrice, total := it.total,
      createdAt := now }
      :: tagLineItems invoiceId (startId + 1) now rest

theorem saveLineItems_eq (items : List LineItemData) :
    ∀ (db : Db) (invoiceId : Nat),
      saveLineItems db invoiceId items
        = { db with
            lineItems := db.lineItems ++ tagLineItems invoiceId db.nextId db.now items,
            nextId := db.nextId + items.length } := by
  induction items with
  | nil =>
    intro db inv
    simp [saveLineItems, tagLineItems]
  | cons it rest ih =>
    intro db inv
    simp only [saveLineItems, tagLineItems, ih]
    refine Db.ext rfl ?_ ?_ rfl
    · simp
    · simp only [List.length_cons]
      omega

/-- C1: reconciliation of a normalized candidate against the store.
No business-key match inserts a new record (fresh identifier) with its
line items in order — `Created`; a match without `updateIfExists`
leaves the store untouched and reports the duplicate together with the
existing record — `RejectedDuplicate`; a match with `updateIfExists`
updates the existing record's scalar fields in place (identifier
preserved), deletes all of its previously stored line items and
inserts the new set — full replacement, not append — `Updated`. -/
theorem reconcile_spec :
    (∀ (db : Db) (d : InvoiceData) (upd : Bool) (fp : String),
      findDuplicateInvoice db d.invoiceNumber d.vendorName = none →
      reconcileInvoice db d upd fp
        = (.success "Invoice processed successfully" db.nextId d,
           { invoices := db.invoices ++
               [{ id := db.nextId, customerName := d.customerName,
                  vendorName := d.vendorName, invoiceNumber := d.invoiceNumber,
                  invoiceDate := d.invoiceDate, dueDate := d.dueDate,
                  amount := d.amount, filePath := some fp, createdAt := db.now }],
             lineItems := db.lineItems ++
               tagLineItems db.nextId (db.nextId + 1) db.now (d.lineItems.getD []),
             nextId := db.nextId + 1 + (d.lineItems.getD []).length,
             now := db.now })) ∧
    (∀ (db : Db) (d : InvoiceData) (fp : String) (e : StoredInvoice),
      findDuplicateInvoice db d.invoiceNumber d.vendorName = some e →
      reconcileInvoice db d false fp
        = (.duplicate "Duplicate invoice"
            ("An invoice with the number " ++ d.invoiceNumber ++ " from vendor "
              ++ d.vendorName ++ " already exists.") e,
           db)) ∧
    (∀ (db : Db) (d : InvoiceData) (fp : String) (e : StoredInvoice),
      findDuplicateInvoice db d.invoiceNumber d.vendorName = some e →
      reconcileInvoice db d true fp
        = (.success "Invoice updated successfully" e.id d,
           { invoices := db.invoices.map (fun i =>
               if i.id = e.id then
                 { i with
                   customerName := d.customerName, vendorName := d.vendorName,
                   invoiceNumber := d.invoiceNumber, invoiceDate := d.invoiceDate,
                   dueDate := setOptional d.dueDate i.dueDate, amount := d.amount }
               else i),
             lineItems := (db.lineItems.filter (fun li => !(li.invoiceId == e.id))) ++
               tagLineItems e.id db.nextId db.now (d.lineItems.getD []),
             nextId := db.nextId + (d.lineItems.getD []).length,
             now := db.now })) := by
  refine ⟨?_, ?_, ?_⟩
  · intro db d upd fp h
    simp only [reconcileInvoice, h, saveInvoice]
    cases hli : d.lineItems with
    | none =>
      simp [tagLineItems]
    | some items =>
      cases items with
      | nil => simp [tagLineItems]
      | cons it rest =>
        simp only [List.length_cons, gt_iff_lt, Nat.succ_pos, if_pos,
          Option.getD_some]
        rw [saveLineItems_eq]
        simp [hli]
  · intro db d fp e h
    simp only [reconcileInvoice, h, Bool.false_eq_true, if_false]
  · intro db d fp e h
    simp only [reconcileInvoice, h, if_true, updateInvoice,
      deleteLineItemsByInvoiceId]
    cases hli : d.lineItems with
    | none =>
      simp [tagLineItems]
    | some items =>
      cases items with
      | nil => simp [tagLineItems]
      | cons it rest =>
        simp only [List.length_cons, gt_iff_lt, Nat.succ_pos, if_pos,
          Option.getD_some]
        rw [saveLineItems_eq]
        simp [hli]

/-- The concrete line item of the reconciliation scenario. -/
def sampleItemData : LineItemData :=
  { description := "Invoice total", quantity := some 1, unitPrice := some 100,
    total := 100 }

/-- The concrete validated candidate of the reconciliation scenario. -/
def sampleData : InvoiceData :=
  { customerName := "Cust GmbH", vendorName := "Acme", invoiceNumber := "INV-1",
    invoiceDate := "2014-05-07", dueDate := none, amount := 100,
    lineItems := some [sampleItemData] }

/-- The empty concrete store. -/
def sampleDb : Db := { invoices := [], lineItems := [], nextId := 0, now := 1000 }

/-- The row the first submission inserts. -/
def sampleStored : StoredInvoice :=
  { id := 0, customerName := "Cust GmbH", vendorName := "Acme",
    invoiceNumber := "INV-1", invoiceDate := "2014-05-07", dueDate := none,
    amount := 100, filePath := some "inv.pdf", createdAt := 1000 }

/-- Witness for C1: submitting `(INV-1, Acme)` twice yields `Created`
then `RejectedDuplicate`; with `updateIfExists` on the second
submission it yields `Updated` instead. -/
theorem reconcile_spec_witness :
    (reconcileInvoice sampleDb sampleData false "inv.pdf").1
      = .success "Invoice processed successfully" 0 sampleData ∧
    (reconcileInvoice (reconcileInvoice sampleDb sampleData false "inv.pdf").2
        sampleData false "inv.pdf").1
      = .duplicate "Duplicate invoice"
          "An invoice with the number INV-1 from vendor Acme already exists."
          sampleStored ∧
    (reconcileInvoice (reconcileInvoice sampleDb sampleData false "inv.pdf").2
        sampleData true "inv.pdf").1
      = .success "Invoice updated successfully" 0 sampleData := by
  refine ⟨?_, ?_, ?_⟩
  · exact (congrArg Prod.fst
      (reconcile_spec.1 sampleDb sampleData false "inv.pdf" rfl)).trans rfl
  · exact (congrArg Prod.fst
      (reconcile_spec.2.1 (reconcileInvoice sampleDb sampleData false "inv.pdf").2
        sampleData "inv.pdf" sampleStored (by decide))).trans rfl
  · exact (congrArg Prod.fst
      (reconcile_spec.2.2 (reconcileInvoice sampleDb sampleData false "inv.pdf").2
        sampleData "inv.pdf" sampleStored (by decide))).trans rfl

end Invoice
